import Mathlib

/-!
# TeaFile codec (blainsmith/teafile): header decoder, encoder, constants

A shallow embedding of `teafile.go`, `decode.go` and `encode.go`.

Conventions of the embedding

* A byte is a `Fin 256`; a Go `string` or `[]byte` is a `List Byte`.
* An `io.Reader` is the list of bytes it still has to deliver.  `io.ReadFull`
  of `n` bytes either delivers the next `n` bytes or, when fewer are left,
  drains the reader and fails with `EOF` (nothing was left) or
  `unexpected EOF`.
* Go methods on `*Decoder` mutate the decoder and return an `error`; here they
  map a `Decoder` to the mutated `Decoder` and an `Option Fault` (`none` is a
  nil error).  A `Fault` is either a returned `error` value or a run-time
  panic.
* Machine integers are `Int`/`Nat` with explicit wrap-around (`toSigned`,
  `ofSigned`).  `int` is 64 bits wide.
* `make([]T, n)` panics when `n` is negative; an allocation of any
  non-negative length is taken to succeed.
* `Decoder.header` is a pointer: the header the decoder writes to is the
  caller's (or the package variable `DefaultHeader` when the caller passed
  nil), also when `NewDecoder` fails.
* The `io.Writer` under the encoder's `bufio.Writer` accepts every write (a
  `bytes.Buffer`), so `binary.Write` of a fixed-size value returns nil.
* A value reached through `reflect` is the list of its struct fields, each
  with its `reflect.StructField` data and its dynamic value (`Item`,
  `StructField`, `FieldValue`); the `rows` argument of `Decode` is what
  `reflect` tells of it (`Rows`).
* A call of `binary.Write` on the nil interface panics, as does
  `Value.Interface` on an unexported field.
-/

namespace Teafile

/-! ## Bytes and integers on the wire -/

abbrev Byte := Fin 256

/-- The byte orders of `encoding/binary`. -/
inductive ByteOrder
  | LittleEndian
  | BigEndian
  deriving DecidableEq, Repr

/-- The `n` low bytes of `v`, least significant first. -/
def putLE : Nat → Nat → List Byte
  | 0, _ => []
  | n + 1, v => ⟨v % 256, Nat.mod_lt _ (by decide)⟩ :: putLE n (v / 256)

/-- The unsigned number a byte sequence holds, least significant byte first. -/
def getLE : List Byte → Nat
  | [] => 0
  | b :: bs => b.val + 256 * getLE bs

/-- Go `order.PutUintN`: the `n` bytes of the unsigned `v` in byte order `order`. -/
def ByteOrder.put (order : ByteOrder) (n : Nat) (v : Nat) : List Byte :=
  match order with
  | .LittleEndian => putLE n v
  | .BigEndian => (putLE n v).reverse

/-- Go `order.UintN`: the unsigned number held by `bs` in byte order `order`. -/
def ByteOrder.get (order : ByteOrder) (bs : List Byte) : Nat :=
  match order with
  | .LittleEndian => getLE bs
  | .BigEndian => getLE bs.reverse

/-- The conversion `intN(uintN)`: two's complement reading of `u`. -/
def toSigned (bits : Nat) (u : Nat) : Int :=
  if u < 2 ^ (bits - 1) then (u : Int) else (u : Int) - 2 ^ bits

/-- The conversion `uintN(intN)`: the two's complement bit pattern of `v`. -/
def ofSigned (bits : Nat) (v : Int) : Nat :=
  (v % 2 ^ bits).toNat

/-- The bytes of the `size`-byte signed integer `v` in byte order `order`. -/
def ByteOrder.putInt (order : ByteOrder) (size : Nat) (v : Int) : List Byte :=
  order.put size (ofSigned (8 * size) v)

/-- Wrap-around of `int64` arithmetic. -/
def wrap64 (v : Int) : Int :=
  toSigned 64 (ofSigned 64 v)

/-- ASCII text as bytes. -/
def bytesOf (s : String) : List Byte :=
  s.toList.map (fun c => Fin.ofNat c.toNat)

/-! ## teafile.go -/

/-- The `const ( ... )` block of teafile.go, one entry per ConstSpec, in source
order.  `iota` is the index of a ConstSpec in its block. -/
def constBlock : List String :=
  [ "MagicValueLittleEndian", "MagicValueBigEndian", "StructTagName", "StructTagTimestamp",
    "SectionIDItem", "SectionIDTime", "SectionIDContent", "SectionIDNameValue",
    "FieldTypeInt8", "FieldTypeInt16", "FieldTypeInt32", "FieldTypeInt64",
    "FieldTypeUint8", "FieldTypeUint16", "FieldTypeUint32", "FieldTypeUint64",
    "FieldTypeFloat", "FieldTypeDouble",
    "NameValueKindInt32", "NameValueKindDouble", "NameValueKindText", "NameValueKindUUID",
    "Epoch", "TicksPerDay" ]

/-- The value of `iota` in the ConstSpec that declares `name`. -/
def iotaAt (name : String) : Int :=
  (constBlock.indexOf name : Nat)

def MagicValueLittleEndian : Int := 0x0d0e0a0402080500
def MagicValueBigEndian : Int := 0x00050802040a0e0d
def StructTagName : List Byte := bytesOf "teafiles"
def StructTagTimestamp : List Byte := bytesOf "timestamp"

def SectionIDItem : Int := 0x0a
def SectionIDTime : Int := 0x40
def SectionIDContent : Int := 0x80
def SectionIDNameValue : Int := 0x81

/-- Go `FieldTypeInt8 FieldType = iota + 1`; the nine ConstSpecs after it repeat
the expression `iota + 1`, each with its own `iota`. -/
def FieldTypeInt8 : Int := iotaAt "FieldTypeInt8" + 1
def FieldTypeInt16 : Int := iotaAt "FieldTypeInt16" + 1
def FieldTypeInt32 : Int := iotaAt "FieldTypeInt32" + 1
def FieldTypeInt64 : Int := iotaAt "FieldTypeInt64" + 1
def FieldTypeUint8 : Int := iotaAt "FieldTypeUint8" + 1
def FieldTypeUint16 : Int := iotaAt "FieldTypeUint16" + 1
def FieldTypeUint32 : Int := iotaAt "FieldTypeUint32" + 1
def FieldTypeUint64 : Int := iotaAt "FieldTypeUint64" + 1
def FieldTypeFloat : Int := iotaAt "FieldTypeFloat" + 1
def FieldTypeDouble : Int := iotaAt "FieldTypeDouble" + 1

/-- Go `NameValueKindInt32 NameValueKind = iota + 1`, repeated by the next three. -/
def NameValueKindInt32 : Int := iotaAt "NameValueKindInt32" + 1
def NameValueKindDouble : Int := iotaAt "NameValueKindDouble" + 1
def NameValueKindText : Int := iotaAt "NameValueKindText" + 1
def NameValueKindUUID : Int := iotaAt "NameValueKindUUID" + 1

def Epoch : Int := 719162
def TicksPerDay : Int := 86400000

/-- A returned `error` value (its message) or a run-time panic. -/
inductive Fault
  | error (msg : String)
  | panic (msg : String)
  deriving DecidableEq, Repr

structure itemSection where
  nextOffset : Int
  itemSize : Int
  deriving DecidableEq, Repr

/-- The struct `Field`; `Typ` is the Go field `Type`. -/
structure Field where
  Name : List Byte
  Typ : Int
  Offset : Int
  deriving DecidableEq, Repr

structure contentSection where
  nextOffset : Int
  deriving DecidableEq, Repr

/-- The dynamic values the decoder stores in `NameValue.Value` (an
`interface{}`): nil, an `int32`, a `float64` (its IEEE bit pattern) or a
`[]byte`. -/
inductive Value
  | nil
  | int32 (v : Int)
  | float64 (bits : Nat)
  | bytes (b : List Byte)
  deriving DecidableEq, Repr

structure NameValue where
  Kind : Int
  Name : List Byte
  Value : Value
  deriving DecidableEq, Repr

structure nameValueSection where
  nextOffset : Int
  nameValuesCount : Int
  nameValues : List NameValue
  deriving DecidableEq, Repr

structure timeSection where
  nextOffset : Int
  epoch : Int
  ticksPerDay : Int
  fieldsCount : Int
  fieldOffsets : List Int
  deriving DecidableEq, Repr

structure Times where
  Epoch : Int
  TicksPerDay : Int
  Offsets : List Int
  deriving DecidableEq, Repr

/-- The struct `Header`; a nil `ByteOrder` is `none`. -/
structure Header where
  ByteOrder : Option ByteOrder
  Name : List Byte
  Description : List Byte
  Fields : List Field
  NameValues : List NameValue
  Times : Times
  deriving DecidableEq, Repr

/-- The zero value of `Header` (`var h teafile.Header`). -/
def zeroHeader : Header :=
  { ByteOrder := none, Name := [], Description := [], Fields := [], NameValues := [],
    Times := { Epoch := 0, TicksPerDay := 0, Offsets := [] } }

/-- The package variable `DefaultHeader` as initialised. -/
def DefaultHeader : Header :=
  { ByteOrder := some .LittleEndian, Name := [], Description := [], Fields := [], NameValues := [],
    Times := { Epoch := Epoch, TicksPerDay := TicksPerDay, Offsets := [] } }

/-! ## decode.go -/

/-- The struct `Decoder`; `reader` is what the stream still holds and `header`
the content of the header the decoder points to. -/
structure Decoder where
  reader : List Byte
  itemStart : Int
  itemEnd : Int
  sectionCount : Int
  header : Header
  itemSection : itemSection
  contentSection : contentSection
  nameValueSection : nameValueSection
  timeSection : timeSection
  padding : List Byte
  deriving DecidableEq, Repr

/-- Go `io.ReadFull(r, buf)` with `len(buf) = n`: the reader afterwards and the
bytes read, or the error of a short read. -/
def ioReadFull (r : List Byte) (n : Nat) : List Byte × Except String (List Byte) :=
  if n ≤ r.length then (r.drop n, .ok (r.take n))
  else if r.length = 0 then ([], .error "EOF")
  else ([], .error "unexpected EOF")

/-- Go `binary.Read(dec.reader, dec.header.ByteOrder, &x)` for a signed integer
`x` of `size` bytes (also of a named integer type). -/
def binaryReadInt (size : Nat) (dec : Decoder) : Decoder × Except Fault Int :=
  match ioReadFull dec.reader size with
  | (r, .error e) => ({ dec with reader := r }, .error (.error e))
  | (r, .ok bs) =>
    match dec.header.ByteOrder with
    | none => ({ dec with reader := r }, .error (.panic "invalid memory address or nil pointer dereference"))
    | some order => ({ dec with reader := r }, .ok (toSigned (8 * size) (order.get bs)))

/-- Go `binary.Read(dec.reader, dec.header.ByteOrder, &x)` for an unsigned
`x` of `size` bytes (the bits of a `float64`). -/
def binaryReadUint (size : Nat) (dec : Decoder) : Decoder × Except Fault Nat :=
  match ioReadFull dec.reader size with
  | (r, .error e) => ({ dec with reader := r }, .error (.error e))
  | (r, .ok bs) =>
    match dec.header.ByteOrder with
    | none => ({ dec with reader := r }, .error (.panic "invalid memory address or nil pointer dereference"))
    | some order => ({ dec with reader := r }, .ok (order.get bs))

/-- Go `binary.Read(dec.reader, dec.header.ByteOrder, buf)` for a byte slice of
length `n` (the byte order plays no part). -/
def binaryReadBytes (n : Nat) (dec : Decoder) : Decoder × Except Fault (List Byte) :=
  match ioReadFull dec.reader n with
  | (r, .error e) => ({ dec with reader := r }, .error (.error e))
  | (r, .ok bs) => ({ dec with reader := r }, .ok bs)

/-- The length check of `make([]T, n)`. -/
def makeLen (n : Int) : Except Fault Nat :=
  if n < 0 then .error (.panic "runtime error: makeslice: len out of range") else .ok n.toNat

/-- Go `fmt.Errorf(pre + "%v", err)`; a panic is not an error value and unwinds. -/
def wrapErr (pre : String) : Fault → Fault
  | .error e => .error (pre ++ e)
  | .panic p => .panic p

def readEndianness (dec : Decoder) : Decoder × Option Fault :=
  match binaryReadInt 8 dec with
  | (dec, .error e) => (dec, some (wrapErr "reading magic value: " e))
  | (dec, .ok mv) =>
    if mv = MagicValueLittleEndian then
      ({ dec with header := { dec.header with ByteOrder := some .LittleEndian } }, none)
    else if mv = MagicValueBigEndian then
      ({ dec with header := { dec.header with ByteOrder := some .BigEndian } }, none)
    else (dec, some (.error "not a teafile"))

def readItemsStartEnd (dec : Decoder) : Decoder × Option Fault :=
  match binaryReadInt 8 dec with
  | (dec, .error e) => (dec, some (wrapErr "reading item start: " e))
  | (dec, .ok v) =>
    let dec := { dec with itemStart := v }
    match binaryReadInt 8 dec with
    | (dec, .error e) => (dec, some (wrapErr "reading item end: " e))
    | (dec, .ok v) => ({ dec with itemEnd := v }, none)

def readSectionCount (dec : Decoder) : Decoder × Option Fault :=
  match binaryReadInt 8 dec with
  | (dec, .error e) => (dec, some (wrapErr "reading section count: " e))
  | (dec, .ok v) => ({ dec with sectionCount := v }, none)

/-- The body of the loop of `readFields` at index `idx`. -/
def readField (idx : Nat) (dec : Decoder) : Decoder × Option Fault :=
  match binaryReadInt 4 dec with
  | (dec, .error e) => (dec, some (wrapErr ("item section field id " ++ toString idx ++ ": ") e))
  | (dec, .ok fieldType) =>
    match binaryReadInt 4 dec with
    | (dec, .error e) => (dec, some (wrapErr ("item section field offset " ++ toString idx ++ ": ") e))
    | (dec, .ok offset) =>
      match binaryReadInt 4 dec with
      | (dec, .error e) =>
        (dec, some (wrapErr ("item section field name length " ++ toString idx ++ ": ") e))
      | (dec, .ok nameLen) =>
        match makeLen nameLen with
        | .error f => (dec, some f)
        | .ok n =>
          match binaryReadBytes n dec with
          | (dec, .error e) =>
            (dec, some (wrapErr ("item section field name " ++ toString idx ++ ": ") e))
          | (dec, .ok name) =>
            ({ dec with header := { dec.header with
                Fields := dec.header.Fields.set idx { Name := name, Typ := fieldType, Offset := offset } } },
              none)

/-- The loop `for idx := range dec.header.Fields` of `readFields`, with `k`
indices still to visit, the next being `idx`. -/
def readFieldsLoop : Nat → Nat → Decoder → Decoder × Option Fault
  | 0, _, dec => (dec, none)
  | k + 1, idx, dec =>
    match readField idx dec with
    | (dec, some f) => (dec, some f)
    | (dec, none) => readFieldsLoop k (idx + 1) dec

def readFields (dec : Decoder) : Decoder × Option Fault :=
  match binaryReadInt 4 dec with
  | (dec, .error e) => (dec, some (wrapErr "item section fields: " e))
  | (dec, .ok fieldsCount) =>
    match makeLen fieldsCount with
    | .error f => (dec, some f)
    | .ok n =>
      let dec := { dec with header := { dec.header with
        Fields := List.replicate n { Name := [], Typ := 0, Offset := 0 } } }
      readFieldsLoop dec.header.Fields.length 0 dec

def readItemSection (dec : Decoder) : Decoder × Option Fault :=
  match binaryReadInt 4 dec with
  | (dec, .error e) => (dec, some (wrapErr "item section next offset: " e))
  | (dec, .ok v) =>
    let dec := { dec with itemSection := { dec.itemSection with nextOffset := v } }
    match binaryReadInt 4 dec with
    | (dec, .error e) => (dec, some (wrapErr "item section item size: " e))
    | (dec, .ok v) =>
      let dec := { dec with itemSection := { dec.itemSection with itemSize := v } }
      match binaryReadInt 4 dec with
      | (dec, .error e) => (dec, some (wrapErr "item section name length: " e))
      | (dec, .ok nameLen) =>
        match makeLen nameLen with
        | .error f => (dec, some f)
        | .ok n =>
          match binaryReadBytes n dec with
          | (dec, .error e) => (dec, some (wrapErr "item section name: " e))
          | (dec, .ok name) =>
            let dec := { dec with header := { dec.header with Name := name } }
            match readFields dec with
            | (dec, some f) => (dec, some f)
            | (dec, none) => (dec, none)

def readContentSection (dec : Decoder) : Decoder × Option Fault :=
  match binaryReadInt 4 dec with
  | (dec, .error e) => (dec, some (wrapErr "item section next offset: " e))
  | (dec, .ok v) =>
    let dec := { dec with contentSection := { dec.contentSection with nextOffset := v } }
    match binaryReadInt 4 dec with
    | (dec, .error e) => (dec, some (wrapErr "item section name length: " e))
    | (dec, .ok nameLen) =>
      match makeLen nameLen with
      | .error f => (dec, some f)
      | .ok n =>
        match binaryReadBytes n dec with
        | (dec, .error e) => (dec, some (wrapErr "item section name: " e))
        | (dec, .ok name) => ({ dec with header := { dec.header with Description := name } }, none)

/-- The assignment `dec.header.NameValues[idx].f = v`: an index out of range
panics. -/
def setNameValue (idx : Nat) (f : NameValue → NameValue) (dec : Decoder) : Except Fault Decoder :=
  match dec.header.NameValues.get? idx with
  | none =>
    .error (.panic ("runtime error: index out of range [" ++ toString idx ++ "] with length "
      ++ toString dec.header.NameValues.length))
  | some nv => .ok { dec with header := { dec.header with NameValues := dec.header.NameValues.set idx (f nv) } }

/-- The `switch kind` at the end of the loop body of `readNameValues`. -/
def readNameValueValue (idx : Nat) (kind : Int) (dec : Decoder) : Decoder × Option Fault :=
  if kind = 1 then
    match binaryReadInt 4 dec with
    | (dec, .error e) =>
      (dec, some (wrapErr ("name values section name value int32 " ++ toString idx ++ ": ") e))
    | (dec, .ok i32) =>
      match setNameValue idx (fun nv => { nv with Value := .int32 i32 }) dec with
      | .error f => (dec, some f)
      | .ok dec => (dec, none)
  else if kind = 2 then
    match binaryReadUint 8 dec with
    | (dec, .error e) =>
      (dec, some (wrapErr ("name values section name value float64 " ++ toString idx ++ ": ") e))
    | (dec, .ok f64) =>
      match setNameValue idx (fun nv => { nv with Value := .float64 f64 }) dec with
      | .error f => (dec, some f)
      | .ok dec => (dec, none)
  else if kind = 3 then
    match binaryReadInt 4 dec with
    | (dec, .error e) =>
      (dec, some (wrapErr ("name values section name value string " ++ toString idx ++ ": ") e))
    | (dec, .ok nameLen) =>
      match makeLen nameLen with
      | .error f => (dec, some f)
      | .ok n =>
        match binaryReadBytes n dec with
        | (dec, .error e) =>
          (dec, some (wrapErr ("name values section name value string " ++ toString idx ++ ": ") e))
        | (dec, .ok name) =>
          match setNameValue idx (fun nv => { nv with Value := .bytes name }) dec with
          | .error f => (dec, some f)
          | .ok dec => (dec, none)
  else (dec, none)

/-- The body of the loop of `readNameValues` at index `idx`. -/
def readNameValue (idx : Nat) (dec : Decoder) : Decoder × Option Fault :=
  match binaryReadInt 4 dec with
  | (dec, .error e) => (dec, some (wrapErr "item section name length: " e))
  | (dec, .ok nameLen) =>
    match makeLen nameLen with
    | .error f => (dec, some f)
    | .ok n =>
      match binaryReadBytes n dec with
      | (dec, .error e) => (dec, some (wrapErr "item section name: " e))
      | (dec, .ok name) =>
        match setNameValue idx (fun nv => { nv with Name := name }) dec with
        | .error f => (dec, some f)
        | .ok dec =>
          match binaryReadInt 4 dec with
          | (dec, .error e) =>
            (dec, some (wrapErr ("name values section name value kind " ++ toString idx ++ ": ") e))
          | (dec, .ok kind) =>
            match setNameValue idx (fun nv => { nv with Kind := kind }) dec with
            | .error f => (dec, some f)
            | .ok dec => readNameValueValue idx kind dec

/-- The loop `for idx := range dec.nameValueSection.nameValues` of
`readNameValues`, with `k` indices still to visit, the next being `idx`. -/
def readNameValuesLoop : Nat → Nat → Decoder → Decoder × Option Fault
  | 0, _, dec => (dec, none)
  | k + 1, idx, dec =>
    match readNameValue idx dec with
    | (dec, some f) => (dec, some f)
    | (dec, none) => readNameValuesLoop k (idx + 1) dec

def readNameValues (dec : Decoder) : Decoder × Option Fault :=
  match binaryReadInt 4 dec with
  | (dec, .error e) => (dec, some (wrapErr "item section item size: " e))
  | (dec, .ok nameValuesCount) =>
    match makeLen nameValuesCount with
    | .error f => (dec, some f)
    | .ok n =>
      let dec := { dec with header := { dec.header with
        NameValues := List.replicate n { Kind := 0, Name := [], Value := .nil } } }
      readNameValuesLoop dec.nameValueSection.nameValues.length 0 dec

def readNameValueSection (dec : Decoder) : Decoder × Option Fault :=
  match binaryReadInt 4 dec with
  | (dec, .error e) => (dec, some (wrapErr "item section next offset: " e))
  | (dec, .ok v) =>
    let dec := { dec with nameValueSection := { dec.nameValueSection with nextOffset := v } }
    match readNameValues dec with
    | (dec, some f) => (dec, some f)
    | (dec, none) => (dec, none)

/-- The loop `for idx := range dec.timeSection.fieldOffsets` of
`readTimeSection`, with `k` indices still to visit, the next being `idx`. -/
def readTimeOffsetsLoop : Nat → Nat → Decoder → Decoder × Option Fault
  | 0, _, dec => (dec, none)
  | k + 1, idx, dec =>
    match binaryReadInt 4 dec with
    | (dec, .error e) => (dec, some (wrapErr ("time section field offset " ++ toString idx ++ ": ") e))
    | (dec, .ok v) =>
      readTimeOffsetsLoop k (idx + 1)
        { dec with timeSection := { dec.timeSection with
            fieldOffsets := dec.timeSection.fieldOffsets.set idx v } }

def readTimeSection (dec : Decoder) : Decoder × Option Fault :=
  match binaryReadInt 4 dec with
  | (dec, .error e) => (dec, some (wrapErr "time section next offset: " e))
  | (dec, .ok v) =>
    let dec := { dec with timeSection := { dec.timeSection with nextOffset := v } }
    match binaryReadInt 8 dec with
    | (dec, .error e) => (dec, some (wrapErr "time section epoch: " e))
    | (dec, .ok v) =>
      let dec := { dec with timeSection := { dec.timeSection with epoch := v } }
      match binaryReadInt 8 dec with
      | (dec, .error e) => (dec, some (wrapErr "time section ticks per day: " e))
      | (dec, .ok v) =>
        let dec := { dec with timeSection := { dec.timeSection with ticksPerDay := v } }
        match binaryReadInt 4 dec with
        | (dec, .error e) => (dec, some (wrapErr "time section ticks per day: " e))
        | (dec, .ok v) =>
          let dec := { dec with timeSection := { dec.timeSection with fieldsCount := v } }
          match makeLen dec.timeSection.fieldsCount with
          | .error f => (dec, some f)
          | .ok n =>
            let dec := { dec with timeSection := { dec.timeSection with
              fieldOffsets := List.replicate n 0 } }
            readTimeOffsetsLoop dec.timeSection.fieldOffsets.length 0 dec

/-- The `switch id` of `readSections`: an id that matches no case runs no
reader and leaves `err` nil. -/
def readSection (id : Int) (dec : Decoder) : Decoder × Option Fault :=
  if id = SectionIDItem then readItemSection dec
  else if id = SectionIDContent then readContentSection dec
  else if id = SectionIDNameValue then readNameValueSection dec
  else if id = SectionIDTime then readTimeSection dec
  else (dec, none)

/-- The loop `for i := 1; i <= int(dec.sectionCount); i++` of `readSections`
with `k` iterations still to run. -/
def readSectionsLoop : Nat → Decoder → Decoder × Option Fault
  | 0, dec => (dec, none)
  | k + 1, dec =>
    match binaryReadInt 4 dec with
    | (dec, .error e) => (dec, some (wrapErr "reading section id: " e))
    | (dec, .ok id) =>
      match readSection id dec with
      | (dec, some f) => (dec, some f)
      | (dec, none) => readSectionsLoop k dec

def readSections (dec : Decoder) : Decoder × Option Fault :=
  readSectionsLoop dec.sectionCount.toNat dec

/-- The local `offset` of `readPadding` when it reaches `make`. -/
def paddingOffset (dec : Decoder) : Int :=
  let offset := dec.itemStart
  let offset :=
    if dec.itemSection.nextOffset > 0 then wrap64 (offset - (36 + 4 + dec.itemSection.nextOffset))
    else offset
  let offset :=
    if dec.contentSection.nextOffset > 0 then wrap64 (offset - (8 + dec.contentSection.nextOffset))
    else offset
  let offset :=
    if dec.nameValueSection.nextOffset > 0 then wrap64 (offset - (8 + dec.nameValueSection.nextOffset))
    else offset
  let offset :=
    if dec.timeSection.nextOffset > 0 then wrap64 (offset - (8 + dec.timeSection.nextOffset))
    else offset
  offset

def readPadding (dec : Decoder) : Decoder × Option Fault :=
  match makeLen (paddingOffset dec) with
  | .error f => (dec, some f)
  | .ok n =>
    let dec := { dec with padding := List.replicate n 0 }
    match binaryReadBytes n dec with
    | (dec, .error e) => (dec, some (wrapErr "padding: " e))
    | (dec, .ok bs) => ({ dec with padding := bs }, none)

/-- What a call of `NewDecoder` leaves behind: the returned `(*Decoder, error)`
pair, the caller's header (`none` when the caller passed nil), the package
variable `DefaultHeader`, and what the stream still holds. -/
structure NewDecoderResult where
  decoder : Option Decoder
  err : Option Fault
  header : Option Header
  DefaultHeader : Header
  reader : List Byte
  deriving DecidableEq, Repr

/-- The composite literal `Decoder{reader: reader, header: header}` once
`d.header` points to a header with content `h`. -/
def newDecoderState (reader : List Byte) (h : Header) : Decoder :=
  { reader := reader, itemStart := 0, itemEnd := 0, sectionCount := 0, header := h,
    itemSection := { nextOffset := 0, itemSize := 0 },
    contentSection := { nextOffset := 0 },
    nameValueSection := { nextOffset := 0, nameValuesCount := 0, nameValues := [] },
    timeSection := { nextOffset := 0, epoch := 0, ticksPerDay := 0, fieldsCount := 0, fieldOffsets := [] },
    padding := [] }

/-- The five reads of `NewDecoder`, from `d.readEndianness()` on. -/
def readHeader (d : Decoder) : Decoder × Option Fault :=
  match readEndianness d with
  | (d, some f) => (d, some f)
  | (d, none) =>
    match readItemsStartEnd d with
    | (d, some f) => (d, some f)
    | (d, none) =>
      match readSectionCount d with
      | (d, some f) => (d, some f)
      | (d, none) =>
        match readSections d with
        | (d, some f) => (d, some f)
        | (d, none) =>
          match readPadding d with
          | (d, some f) => (d, some f)
          | (d, none) => (d, none)

/-- The header `d.header` points to after `if d.header == nil { d.header =
&DefaultHeader }`: the caller's, or the package variable (holding `g`) for a
nil argument. -/
def targetHeader (header : Option Header) (g : Header) : Header :=
  match header with
  | none => g
  | some h => h

/-- The statement `if d.header.ByteOrder == nil { d.header.ByteOrder =
binary.LittleEndian }`. -/
def defaultByteOrder (h : Header) : Header :=
  if h.ByteOrder = none then { h with ByteOrder := some .LittleEndian } else h

/-- Go `NewDecoder(reader, header)` run while the package variable `DefaultHeader`
holds `g`.  A nil `header` is `none`; the decoder then points to
`DefaultHeader` and its writes land there. -/
def NewDecoder (reader : List Byte) (header : Option Header) (g : Header) : NewDecoderResult :=
  match readHeader (newDecoderState reader (defaultByteOrder (targetHeader header g))) with
  | (d, some f) =>
    { decoder := none, err := some f,
      header := header.map (fun _ => d.header),
      DefaultHeader := if header = none then d.header else g,
      reader := d.reader }
  | (d, none) =>
    { decoder := some d, err := none,
      header := header.map (fun _ => d.header),
      DefaultHeader := if header = none then d.header else g,
      reader := d.reader }

/-- The method `Decoder.Decode(row)`: the target the caller passed, as the
call leaves it, and the returned error. -/
def Decoder.Decode {α : Type} (dec : Decoder) (row : α) : Decoder × α × Option Fault :=
  (dec, row, none)

/-! ## encode.go -/

/-- A `*bufio.Writer` of the default size over an `io.Writer` that accepts
every write (a `bytes.Buffer`): `out` is what the underlying writer has
received, `buf` what is still buffered. -/
structure Writer where
  out : List Byte
  buf : List Byte
  deriving DecidableEq, Repr

/-- The buffer size of `bufio.NewWriter`. -/
def defaultBufSize : Nat := 4096

/-- Go `bufio.NewWriter(w)` over a writer that has received `out` so far. -/
def Writer.new (out : List Byte) : Writer :=
  { out := out, buf := [] }

/-- Go `(*bufio.Writer).Flush`. -/
def Writer.Flush (w : Writer) : Writer :=
  { out := w.out ++ w.buf, buf := [] }

/-- Go `(*bufio.Writer).Write(p)`: while `p` exceeds the room left, an empty
buffer passes `p` straight through and a non-empty one is filled and flushed;
what remains is buffered. -/
def Writer.Write (w : Writer) (p : List Byte) : Writer :=
  if p.length > defaultBufSize - w.buf.length then
    if w.buf.length = 0 then { w with out := w.out ++ p }
    else
      let n := defaultBufSize - w.buf.length
      let w := Writer.Flush { w with buf := w.buf ++ p.take n }
      let p := p.drop n
      if p.length > defaultBufSize then { w with out := w.out ++ p }
      else { w with buf := p }
  else { w with buf := w.buf ++ p }

structure Encoder where
  byteOrder : ByteOrder
  w : Writer
  itemName : List Byte
  deriving DecidableEq, Repr

/-- The dynamic value of a struct field as the type switch of `marshal` sees
it: one of the ten numeric types, a `time.Time` (seconds since the Unix epoch
and nanoseconds within the second), or a value of another type. -/
inductive FieldValue
  | int8 (v : Int)
  | int16 (v : Int)
  | int32 (v : Int)
  | int64 (v : Int)
  | uint8 (v : Nat)
  | uint16 (v : Nat)
  | uint32 (v : Nat)
  | uint64 (v : Nat)
  | float32 (bits : Nat)
  | float64 (bits : Nat)
  | time (sec : Int) (nsec : Nat)
  | other (typeName : List Byte)
  deriving DecidableEq, Repr

/-- A field of a struct value: `reflect.StructField` (name, package path,
which is empty for an exported field, and the key-value pairs of the tag)
together with the field's value. -/
structure StructField where
  Name : List Byte
  PkgPath : List Byte
  Tag : List (List Byte × List Byte)
  Value : FieldValue
  deriving DecidableEq, Repr

/-- What a caller passes as `item interface{}`: the nil interface, a nil
pointer, a pointer to a value, a struct value, or a value of another kind. -/
inductive Item
  | nil
  | nilPtr
  | ptr (elem : Item)
  | struct (typeName : List Byte) (fields : List StructField)
  | other (typeName : List Byte)
  deriving DecidableEq, Repr

/-- The first lines of `marshal`: `reflect.ValueOf(v)` and the loop that
follows interfaces and pointers; `none` when `marshal` returns nil there. -/
def Item.deref : Item → Option Item
  | .nil => none
  | .nilPtr => none
  | .ptr e => e.deref
  | .struct t fs => some (.struct t fs)
  | .other t => some (.other t)

/-- Go `binary.Write(enc.w, enc.byteOrder, value)` for a byte slice. -/
def Encoder.binaryWriteBytes (enc : Encoder) (bs : List Byte) : Encoder × Option Fault :=
  ({ enc with w := enc.w.Write bs }, none)

/-- Go `binary.Write(enc.w, enc.byteOrder, value)` for an `int64`. -/
def Encoder.binaryWriteInt64 (enc : Encoder) (v : Int) : Encoder × Option Fault :=
  ({ enc with w := enc.w.Write (enc.byteOrder.putInt 8 v) }, none)

/-- Go `Time.UnixNano`. -/
def UnixNano (sec : Int) (nsec : Nat) : Int :=
  wrap64 (sec * 1000000000 + nsec)

/-- The type switch of `marshal` followed by `enc.binaryWrite(value)`: the
bytes `binary.Write` hands to the writer, or the panic of `binary.Write` on
the nil interface that `value` still is for a type outside the switch. -/
def Encoder.binaryWriteValue (enc : Encoder) (v : FieldValue) : Encoder × Option Fault :=
  match v with
  | .int8 v => ({ enc with w := enc.w.Write (enc.byteOrder.putInt 1 v) }, none)
  | .int16 v => ({ enc with w := enc.w.Write (enc.byteOrder.putInt 2 v) }, none)
  | .int32 v => ({ enc with w := enc.w.Write (enc.byteOrder.putInt 4 v) }, none)
  | .int64 v => ({ enc with w := enc.w.Write (enc.byteOrder.putInt 8 v) }, none)
  | .uint8 v => ({ enc with w := enc.w.Write (enc.byteOrder.put 1 v) }, none)
  | .uint16 v => ({ enc with w := enc.w.Write (enc.byteOrder.put 2 v) }, none)
  | .uint32 v => ({ enc with w := enc.w.Write (enc.byteOrder.put 4 v) }, none)
  | .uint64 v => ({ enc with w := enc.w.Write (enc.byteOrder.put 8 v) }, none)
  | .float32 bits => ({ enc with w := enc.w.Write (enc.byteOrder.put 4 bits) }, none)
  | .float64 bits => ({ enc with w := enc.w.Write (enc.byteOrder.put 8 bits) }, none)
  | .time sec nsec => enc.binaryWriteInt64 (UnixNano sec nsec)
  | .other _ => (enc, some (.panic "reflect: call of reflect.Value.Type on zero Value"))

/-- Go `val.FieldByName(name)`. -/
def FieldByName (fields : List StructField) (name : List Byte) : Option StructField :=
  fields.find? (fun f => f.Name = name)

/-- The `for idx` loop of `marshal` over the fields `rest` still to visit of a
struct with fields `all`; `found` is `foundTSTag`. -/
def marshalFields (all : List StructField) :
    List StructField → Encoder → Bool → Encoder × Bool × Option Fault
  | [], enc, found => (enc, found, none)
  | sf :: rest, enc, found =>
    let found :=
      match sf.Tag.lookup StructTagName with
      | some tf => if (bytesOf "," ++ StructTagTimestamp).isSuffixOf tf then true else found
      | none => found
    match FieldByName all sf.Name with
    | none => (enc, found, some (.panic "reflect: call of reflect.Value.Interface on zero Value"))
    | some fval =>
      if fval.PkgPath ≠ [] then
        (enc, found, some (.panic
          "reflect.Value.Interface: cannot return value obtained from unexported field or method"))
      else
        match enc.binaryWriteValue fval.Value with
        | (enc, some (.panic p)) => (enc, found, some (.panic p))
        | (enc, _) => marshalFields all rest enc found

def Encoder.marshal (enc : Encoder) (v : Item) : Encoder × Option Fault :=
  match v.deref with
  | none => (enc, none)
  | some (.struct t fields) =>
    let enc :=
      if enc.itemName = [] then (Encoder.binaryWriteBytes { enc with itemName := t } t).1 else enc
    if fields.length = 0 then (enc, some (.error ""))
    else
      match marshalFields fields fields enc false with
      | (enc, _, some f) => (enc, some f)
      | (enc, found, none) => if !found then (enc, some (.error "")) else (enc, none)
  | some (.other t) =>
    let enc :=
      if enc.itemName = [] then (Encoder.binaryWriteBytes { enc with itemName := t } t).1 else enc
    (enc, some (.error ""))
  | some _ => (enc, none)

/-- Go `NewEncoder(w, header)` over a writer that has received `out` so far; the
result of `e.binaryWrite(MagicValueBigEndian)` is dropped. -/
def NewEncoder (out : List Byte) (_header : Option Header) : Encoder × Option Fault :=
  let e : Encoder := { byteOrder := .BigEndian, w := Writer.new out, itemName := [] }
  ((e.binaryWriteInt64 MagicValueBigEndian).1, none)

/-- The method `Encoder.Encode(item)`. -/
def Encoder.Encode (enc : Encoder) (item : Item) : Encoder × Option Fault :=
  match enc.marshal item with
  | (enc, some f) => (enc, some f)
  | (enc, none) => ({ enc with w := enc.w.Flush }, none)

/-! ## Wire layouts and sample inputs

The section layouts of the format (a string is its `int32` length and its
bytes; an Item section is `NextOffset`, `ItemSize`, `Name`, `FieldCount` and
the fields), used to say what a stream holds, and the concrete streams and
records the theorems evaluate the code on. -/

/-- The values of an `int32`. -/
def isInt32 (v : Int) : Prop := -2147483648 ≤ v ∧ v < 2147483648

/-- The values of an `int64`. -/
def isInt64 (v : Int) : Prop := -9223372036854775808 ≤ v ∧ v < 9223372036854775808

/-- A string on the wire: its `int32` length, then its bytes. -/
def wireString (order : ByteOrder) (s : List Byte) : List Byte :=
  order.putInt 4 s.length ++ s

/-- A field on the wire: `Type:int32`, `Offset:int32`, `Name`. -/
def wireField (order : ByteOrder) (f : Field) : List Byte :=
  order.putInt 4 f.Typ ++ (order.putInt 4 f.Offset ++ wireString order f.Name)

/-- The fields of an Item section on the wire, one after the other. -/
def wireFields (order : ByteOrder) : List Field → List Byte
  | [] => []
  | f :: fs => wireField order f ++ wireFields order fs

/-- The body of an Item section on the wire (what follows the section id):
`NextOffset`, `ItemSize`, `Name`, `FieldCount`, then the fields. -/
def wireItemSection (order : ByteOrder) (nextOffset itemSize : Int) (name : List Byte)
    (fields : List Field) : List Byte :=
  order.putInt 4 nextOffset ++ (order.putInt 4 itemSize ++ (wireString order name ++
    (order.putInt 4 fields.length ++ wireFields order fields)))

/-- A field whose `Type`, `Offset` and name length are `int32` values. -/
def Field.onWire (f : Field) : Prop :=
  isInt32 f.Typ ∧ isInt32 f.Offset ∧ isInt32 f.Name.length

instance (v : Int) : Decidable (isInt32 v) := by
  unfold isInt32
  infer_instance

instance (v : Int) : Decidable (isInt64 v) := by
  unfold isInt64
  infer_instance

instance (f : Field) : Decidable f.onWire := by
  unfold Field.onWire
  infer_instance

/-- The fields `{Name: "ts", Type: 4, Offset: 0}` and
`{Name: "volume", Type: 1, Offset: 8}`. -/
def sampleFields : List Field :=
  [{ Name := bytesOf "ts", Typ := 4, Offset := 0 }, { Name := bytesOf "volume", Typ := 1, Offset := 8 }]

/-- The magic bytes of a little-endian file. -/
def magicLE : List Byte := ByteOrder.LittleEndian.putInt 8 MagicValueLittleEndian

/-- A little-endian stream with `ItemStart = 32`, `ItemEnd = 64`, no section,
no padding, and 32 bytes of item data. -/
def streamNoSections : List Byte :=
  magicLE ++ ByteOrder.LittleEndian.putInt 8 32 ++ ByteOrder.LittleEndian.putInt 8 64
    ++ ByteOrder.LittleEndian.putInt 8 0 ++ List.replicate 32 7

/-- A little-endian header of 52 bytes (one Item section with an empty name
and no field, `NextOffset = 12`) that declares `ItemStart = 40`. -/
def streamItemStartTooSmall : List Byte :=
  magicLE ++ ByteOrder.LittleEndian.putInt 8 40 ++ ByteOrder.LittleEndian.putInt 8 40
    ++ ByteOrder.LittleEndian.putInt 8 1
    ++ ByteOrder.LittleEndian.putInt 4 SectionIDItem
    ++ wireItemSection .LittleEndian 12 0 [] []

/-- The entry `{Name: "a", Kind: 1 (Int32), Value: int32(7)}` on the wire. -/
def wireEntryA : List Byte :=
  wireString .LittleEndian (bytesOf "a") ++ ByteOrder.LittleEndian.putInt 4 1
    ++ ByteOrder.LittleEndian.putInt 4 7

/-- The body of a NameValue section with `Count = 1` holding `wireEntryA`;
`NextOffset = 17` is the length of what follows it. -/
def wireNameValueSectionA : List Byte :=
  ByteOrder.LittleEndian.putInt 4 17 ++ ByteOrder.LittleEndian.putInt 4 1 ++ wireEntryA

/-- The body of a Time section: `NextOffset`, `Epoch`, `TicksPerDay`,
`FieldOffsetCount`, then the offsets. -/
def wireTimeSection (order : ByteOrder) (nextOffset epoch ticksPerDay : Int) (offsets : List Int) :
    List Byte :=
  order.putInt 4 nextOffset ++ order.putInt 8 epoch ++ order.putInt 8 ticksPerDay
    ++ order.putInt 4 offsets.length ++ (offsets.map (order.putInt 4)).flatten

/-- A complete little-endian header of 99 bytes, `ItemStart = 99`: an Item
section (item `"T"`, size 8, one field `ts` of wire type 4 at offset 0) and a
Time section (`Epoch = 719162`, `TicksPerDay = 86400000`, offsets `[0]`). -/
def streamItemAndTime : List Byte :=
  magicLE ++ ByteOrder.LittleEndian.putInt 8 99 ++ ByteOrder.LittleEndian.putInt 8 99
    ++ ByteOrder.LittleEndian.putInt 8 2
    ++ ByteOrder.LittleEndian.putInt 4 SectionIDItem
    ++ wireItemSection .LittleEndian 27 8 (bytesOf "T")
        [{ Name := bytesOf "ts", Typ := 4, Offset := 0 }]
    ++ ByteOrder.LittleEndian.putInt 4 SectionIDTime
    ++ wireTimeSection .LittleEndian 24 719162 86400000 [0]

/-- The record type of the tests, `struct { Timestamp time.Time; Volume int8 }`
with the tags `teafiles:"ts,timestamp"` and `teafiles:"volume"`. -/
def myEncoderType (sec : Int) (nsec : Nat) (volume : Int) : Item :=
  .struct (bytesOf "teafile_test.myEncoderType")
    [ { Name := bytesOf "Timestamp", PkgPath := [],
        Tag := [(bytesOf "teafiles", bytesOf "ts,timestamp")], Value := .time sec nsec },
      { Name := bytesOf "Volume", PkgPath := [],
        Tag := [(bytesOf "teafiles", bytesOf "volume")], Value := .int8 volume } ]

/-- The record `{Timestamp: 2021-01-01T00:00:00Z, Volume: 10}`. -/
def record2021 : Item := myEncoderType 1609459200 0 10

/-- The zero value of the record type: the zero `time.Time` is
0001-01-01T00:00:00Z, 62135596800 seconds before the Unix epoch. -/
def recordZero : Item := myEncoderType (-62135596800) 0 0

/-! ## The function Decode of decode.go -/

/-- What a caller passes as `rows interface{}`, as `reflect` sees it: the nil
interface, a value that is not a pointer, a typed nil pointer, or a non-nil
pointer to a value that is a slice (`isSlice`) or not, of type `elemType`. -/
inductive Rows
  | nil
  | nonPointer (typeName : List Byte)
  | nilPointer (typeName : List Byte)
  | pointer (isSlice : Bool) (elemType : List Byte)
  deriving DecidableEq, Repr

/-- The errors `Decode` returns: the package variable `ErrNonPointer`, an
`*UnsupportedTypeError` with its `Type`, or the error of `NewDecoder`. -/
inductive DecodeError
  | ErrNonPointer
  | UnsupportedTypeError (typ : List Byte)
  | fromNewDecoder (f : Fault)
  deriving DecidableEq, Repr

/-- What a call of `Decode` leaves behind: the returned error, the caller's
header (`none` when the caller passed nil), the package variable
`DefaultHeader`, and what the stream still holds. -/
structure DecodeResult where
  err : Option DecodeError
  header : Option Header
  DefaultHeader : Header
  reader : List Byte
  deriving DecidableEq, Repr

/-- The function `Decode(reader, header, rows)` run while the package variable
`DefaultHeader` holds `g`. -/
def Decode (reader : List Byte) (header : Option Header) (rows : Rows) (g : Header) :
    DecodeResult :=
  match rows with
  | .nil => { err := some .ErrNonPointer, header := header, DefaultHeader := g, reader := reader }
  | .nonPointer _ =>
    { err := some .ErrNonPointer, header := header, DefaultHeader := g, reader := reader }
  | .nilPointer _ =>
    { err := some .ErrNonPointer, header := header, DefaultHeader := g, reader := reader }
  | .pointer false t =>
    { err := some (.UnsupportedTypeError t), header := header, DefaultHeader := g,
      reader := reader }
  | .pointer true _ =>
    let r := NewDecoder reader header g
    { err := r.err.map .fromNewDecoder, header := r.header, DefaultHeader := r.DefaultHeader,
      reader := r.reader }

/-! ## More sample inputs -/

/-- The types the type switch of `marshal` has a case for. -/
def FieldValue.supported : FieldValue → Bool
  | .other _ => false
  | _ => true

/-- A tag value that marks the timestamp field: `strings.HasSuffix(tf,
","+StructTagTimestamp)`. -/
def marksTimestamp (tf : List Byte) : Bool :=
  (bytesOf "," ++ StructTagTimestamp).isSuffixOf tf

/-- The record `{Timestamp: 1970-01-01T00:00:00Z, Volume: 10}`. -/
def recordEpoch : Item := myEncoderType 0 0 10

/-- A record `struct { Timestamp time.Time; Name string; Volume int8 }` with the
tags `teafiles:"ts,timestamp"`, `teafiles:"name"` and `teafiles:"volume"`,
holding 2021-01-01T00:00:00Z, a string and 10. -/
def recordWithString : Item :=
  .struct (bytesOf "main.named")
    [ { Name := bytesOf "Timestamp", PkgPath := [],
        Tag := [(bytesOf "teafiles", bytesOf "ts,timestamp")], Value := .time 1609459200 0 },
      { Name := bytesOf "Name", PkgPath := [],
        Tag := [(bytesOf "teafiles", bytesOf "name")], Value := .other (bytesOf "string") },
      { Name := bytesOf "Volume", PkgPath := [],
        Tag := [(bytesOf "teafiles", bytesOf "volume")], Value := .int8 10 } ]

/-- A record `struct { Volume int8 }` with the tag `teafiles:"volume"` and no
timestamp field, holding 77. -/
def recordNoTimestamp : Item :=
  .struct (bytesOf "main.plain")
    [ { Name := bytesOf "Volume", PkgPath := [],
        Tag := [(bytesOf "teafiles", bytesOf "volume")], Value := .int8 77 } ]

/-- A record `struct { volume int8 }` of package `main`: one unexported field,
no tag, holding 77. -/
def recordUnexported : Item :=
  .struct (bytesOf "main.hidden")
    [ { Name := bytesOf "volume", PkgPath := bytesOf "main", Tag := [], Value := .int8 77 } ]

/-- A record `struct { Name string }` without tag, holding a string. -/
def recordOnlyString : Item :=
  .struct (bytesOf "main.text")
    [ { Name := bytesOf "Name", PkgPath := [], Tag := [], Value := .other (bytesOf "string") } ]

/-- The magic bytes of a big-endian file. -/
def magicBE : List Byte := ByteOrder.LittleEndian.putInt 8 MagicValueBigEndian

/-- A complete big-endian header of 67 bytes, `ItemStart = 67`: one Item
section (item `"T"`, size 8, one field `ts` of wire type 4 at offset 0). -/
def streamBigEndianItem : List Byte :=
  magicBE ++ ByteOrder.BigEndian.putInt 8 67 ++ ByteOrder.BigEndian.putInt 8 67
    ++ ByteOrder.BigEndian.putInt 8 1
    ++ ByteOrder.BigEndian.putInt 4 SectionIDItem
    ++ wireItemSection .BigEndian 27 8 (bytesOf "T")
        [{ Name := bytesOf "ts", Typ := 4, Offset := 0 }]

/-- A stream of 32 bytes: the magic bytes of a little-endian file, then
`ItemStart = 0`, `ItemEnd = 0` and `SectionCount = 0`. -/
def streamAllZero : List Byte :=
  magicLE ++ List.replicate 24 0


/-! ## Truncated streams -/

/-- The decoder `dec` over the first `m` bytes of what its stream holds. -/
def Decoder.trunc (dec : Decoder) (m : Nat) : Decoder :=
  { dec with reader := dec.reader.take m }

/-- A step that, whenever it returns nil on a stream, returns the same on every
truncation of the stream that keeps the bytes it consumed, and returns an error
on every shorter truncation. -/
def Steady (f : Decoder → Decoder × Option Fault) : Prop :=
  ∀ dec dec1, f dec = (dec1, none) →
    dec1.reader.length ≤ dec.reader.length ∧
    ∀ m,
      (dec.reader.length - dec1.reader.length ≤ m →
        f (dec.trunc m) = (dec1.trunc (m - (dec.reader.length - dec1.reader.length)), none)) ∧
      (m < dec.reader.length - dec1.reader.length →
        ∃ d e, f (dec.trunc m) = (d, some (.error e)))

/-- The property `Steady` for a read that yields a value. -/
def SteadyR {α : Type} (f : Decoder → Decoder × Except Fault α) : Prop :=
  ∀ dec dec1 v, f dec = (dec1, .ok v) →
    dec1.reader.length ≤ dec.reader.length ∧
    ∀ m,
      (dec.reader.length - dec1.reader.length ≤ m →
        f (dec.trunc m) = (dec1.trunc (m - (dec.reader.length - dec1.reader.length)), .ok v)) ∧
      (m < dec.reader.length - dec1.reader.length →
        ∃ d e, f (dec.trunc m) = (d, .error (.error e)))
/-! ## Headers of the common shape -/

/-- The four kinds of section. -/
inductive SectionKind
  | item
  | content
  | nameValue
  | time
  deriving DecidableEq, Repr

/-- A section of a header of the common shape: an Item section, a Content
section, a NameValue section with `Count = 0`, or a Time section. -/
inductive Section
  | item (itemSize : Int) (name : List Byte) (fields : List Field)
  | content (description : List Byte)
  | nameValue
  | time (epoch ticksPerDay : Int) (offsets : List Int)
  deriving DecidableEq, Repr

/-- The kind of the section. -/
def Section.kind : Section → SectionKind
  | .item _ _ _ => .item
  | .content _ => .content
  | .nameValue => .nameValue
  | .time _ _ _ => .time

/-- The id that precedes the section on the wire. -/
def Section.id : Section → Int
  | .item _ _ _ => SectionIDItem
  | .content _ => SectionIDContent
  | .nameValue => SectionIDNameValue
  | .time _ _ _ => SectionIDTime

/-- The byte length of a list of fields on the wire. -/
def fieldsSize : List Field → Nat
  | [] => 0
  | f :: fs => 4 + 4 + (4 + f.Name.length) + fieldsSize fs

/-- The `NextOffset` of the section: the byte length of what follows the
`NextOffset` field inside the section. -/
def Section.nextOffset : Section → Nat
  | .item _ name fields => 4 + (4 + name.length) + 4 + fieldsSize fields
  | .content description => 4 + description.length
  | .nameValue => 4
  | .time _ _ offsets => 8 + 8 + 4 + 4 * offsets.length

/-- The offsets of a Time section on the wire. -/
def wireOffsets (order : ByteOrder) : List Int → List Byte
  | [] => []
  | o :: os => order.putInt 4 o ++ wireOffsets order os

/-- What follows the section id: `NextOffset` and the rest of the section. -/
def Section.body (order : ByteOrder) : Section → List Byte
  | .item itemSize name fields =>
    wireItemSection order (Section.nextOffset (.item itemSize name fields)) itemSize name fields
  | .content description =>
    order.putInt 4 (Section.nextOffset (.content description)) ++ wireString order description
  | .nameValue => order.putInt 4 (Section.nextOffset .nameValue) ++ order.putInt 4 0
  | .time epoch ticksPerDay offsets =>
    order.putInt 4 (Section.nextOffset (.time epoch ticksPerDay offsets)) ++
      (order.putInt 8 epoch ++ (order.putInt 8 ticksPerDay ++
        (order.putInt 4 offsets.length ++ wireOffsets order offsets)))

/-- The section on the wire: its id, then its body. -/
def Section.wire (order : ByteOrder) (s : Section) : List Byte :=
  order.putInt 4 s.id ++ s.body order

/-- The sections of a header on the wire, one after the other. -/
def wireSections (order : ByteOrder) : List Section → List Byte
  | [] => []
  | s :: ss => s.wire order ++ wireSections order ss

/-- The sum over the sections of `8 + NextOffset`. -/
def sectionsSize : List Section → Nat
  | [] => 0
  | s :: ss => 8 + s.nextOffset + sectionsSize ss

/-- The values of the section fit the integers of the wire format. -/
def Section.onWire : Section → Prop
  | .item itemSize name fields =>
    isInt32 (Section.nextOffset (.item itemSize name fields)) ∧ isInt32 itemSize ∧
      isInt32 name.length ∧ isInt32 fields.length ∧ ∀ f ∈ fields, f.onWire
  | .content description =>
    isInt32 (Section.nextOffset (.content description)) ∧ isInt32 description.length
  | .nameValue => True
  | .time epoch ticksPerDay offsets =>
    isInt32 (Section.nextOffset (.time epoch ticksPerDay offsets)) ∧ isInt64 epoch ∧
      isInt64 ticksPerDay ∧ isInt32 offsets.length ∧ ∀ o ∈ offsets, isInt32 o

/-- What reading the section leaves in the decoder, the stream apart. -/
def Section.record (s : Section) (d : Decoder) : Decoder :=
  match s with
  | .item itemSize name fields =>
    { d with
      itemSection := { nextOffset := Section.nextOffset (.item itemSize name fields),
                       itemSize := itemSize },
      header := { d.header with Name := name, Fields := fields } }
  | .content description =>
    { d with
      contentSection := { nextOffset := Section.nextOffset (.content description) },
      header := { d.header with Description := description } }
  | .nameValue =>
    { d with
      nameValueSection := { d.nameValueSection with nextOffset := Section.nextOffset .nameValue },
      header := { d.header with NameValues := [] } }
  | .time epoch ticksPerDay offsets =>
    { d with
      timeSection := { nextOffset := Section.nextOffset (.time epoch ticksPerDay offsets),
                       epoch := epoch, ticksPerDay := ticksPerDay,
                       fieldsCount := offsets.length, fieldOffsets := offsets } }

/-- What reading the sections in turn leaves in the decoder, the stream apart. -/
def recordSections : List Section → Decoder → Decoder
  | [], d => d
  | s :: ss, d => recordSections ss (s.record d)

/-- The `NextOffset` the decoder has recorded for a kind of section. -/
def recordedOffset (k : SectionKind) (d : Decoder) : Int :=
  match k with
  | .item => d.itemSection.nextOffset
  | .content => d.contentSection.nextOffset
  | .nameValue => d.nameValueSection.nextOffset
  | .time => d.timeSection.nextOffset

/-- The 8 magic bytes `b`, read in byte order `o0`, select the byte order `o`. -/
def negotiates (o0 : ByteOrder) (b : List Byte) (o : ByteOrder) : Prop :=
  (toSigned 64 (o0.get b) = MagicValueLittleEndian ∧ o = .LittleEndian) ∨
  (toSigned 64 (o0.get b) = MagicValueBigEndian ∧ o = .BigEndian)

/-- The header of the common shape on the wire, before the padding: magic
bytes, `ItemStart`, `ItemEnd`, `SectionCount` and the sections. -/
def wireHeader (order : ByteOrder) (magic : List Byte) (itemStart itemEnd : Int)
    (secs : List Section) : List Byte :=
  magic ++ (order.putInt 8 itemStart ++ (order.putInt 8 itemEnd ++
    (order.putInt 8 secs.length ++ wireSections order secs)))

/-- What the recorded `NextOffset` of a kind takes from `ItemStart` in
`readPadding`, the 32 bytes before the sections apart. -/
def paddingShare (k : SectionKind) (d : Decoder) : Int :=
  if recordedOffset k d > 0 then 8 + recordedOffset k d else 0

instance (s : Section) : Decidable s.onWire := by
  cases s <;> unfold Section.onWire <;> infer_instance

instance (o0 : ByteOrder) (b : List Byte) (o : ByteOrder) : Decidable (negotiates o0 b o) := by
  unfold negotiates
  infer_instance

/-- A Content section (`"hi"`), an Item section (item `"T"` of size 9 with the
fields `ts` and `volume`) and a Time section (offsets `[0]`), in this order:
14 + 53 + 32 bytes on the wire. -/
def sampleSections : List Section :=
  [ .content (bytesOf "hi"), .item 9 (bytesOf "T") sampleFields, .time 719162 86400000 [0] ]

/-! ## Lemmas -/

theorem putLE_length (n v : Nat) : (putLE n v).length = n := by
  induction n generalizing v with
  | zero => rfl
  | succ k ih => simp [putLE, ih]

theorem getLE_putLE (n v : Nat) : getLE (putLE n v) = v % 256 ^ n := by
  induction n generalizing v with
  | zero => simp [putLE, getLE, Nat.mod_one]
  | succ k ih =>
    simp only [putLE, getLE, ih]
    rw [pow_succ, mul_comm (256 ^ k) 256, Nat.mod_mul]

theorem put_length (order : ByteOrder) (n v : Nat) : (order.put n v).length = n := by
  cases order <;> simp [ByteOrder.put, putLE_length]

theorem get_put (order : ByteOrder) (n v : Nat) : order.get (order.put n v) = v % 256 ^ n := by
  cases order <;> simp [ByteOrder.get, ByteOrder.put, getLE_putLE]

theorem putInt_length (order : ByteOrder) (n : Nat) (v : Int) : (order.putInt n v).length = n := by
  simp [ByteOrder.putInt, put_length]

theorem toSigned_get_putInt4 (order : ByteOrder) (v : Int) (hv : isInt32 v) :
    toSigned (8 * 4) (order.get (order.putInt 4 v)) = v := by
  unfold isInt32 at hv
  rw [ByteOrder.putInt, get_put]
  simp only [toSigned, ofSigned]
  norm_num
  have h1 : ((v % 4294967296).toNat : Int) = v % 4294967296 := Int.toNat_of_nonneg (by omega)
  split_ifs with h <;> omega

theorem toSigned_get_putInt8 (order : ByteOrder) (v : Int) (hv : isInt64 v) :
    toSigned (8 * 8) (order.get (order.putInt 8 v)) = v := by
  unfold isInt64 at hv
  rw [ByteOrder.putInt, get_put]
  simp only [toSigned, ofSigned]
  norm_num
  have h1 : ((v % 18446744073709551616).toNat : Int) = v % 18446744073709551616 :=
    Int.toNat_of_nonneg (by omega)
  split_ifs with h <;> omega

theorem ioReadFull_append (b rest : List Byte) (n : Nat) (hb : b.length = n) :
    ioReadFull (b ++ rest) n = (rest, .ok b) := by
  subst hb
  simp [ioReadFull]

theorem binaryReadInt_append (size : Nat) (dec : Decoder) (order : ByteOrder) (b rest : List Byte)
    (ho : dec.header.ByteOrder = some order) (hr : dec.reader = b ++ rest) (hb : b.length = size) :
    binaryReadInt size dec = ({ dec with reader := rest }, .ok (toSigned (8 * size) (order.get b))) := by
  simp [binaryReadInt, hr, ioReadFull_append b rest size hb, ho]

theorem binaryReadInt4_putInt (dec : Decoder) (order : ByteOrder) (v : Int) (rest : List Byte)
    (ho : dec.header.ByteOrder = some order) (hr : dec.reader = order.putInt 4 v ++ rest)
    (hv : isInt32 v) :
    binaryReadInt 4 dec = ({ dec with reader := rest }, .ok v) := by
  rw [binaryReadInt_append 4 dec order _ rest ho hr (putInt_length _ _ _), toSigned_get_putInt4 order v hv]

theorem binaryReadBytes_append (dec : Decoder) (b rest : List Byte) (hr : dec.reader = b ++ rest) :
    binaryReadBytes b.length dec = ({ dec with reader := rest }, .ok b) := by
  simp [binaryReadBytes, hr, ioReadFull_append b rest _ rfl]

theorem makeLen_length (n : Nat) : makeLen (n : Int) = .ok n := by
  simp [makeLen]

theorem binaryReadInt4_mk (order : ByteOrder) (v : Int) (hv : isInt32 v) (rest : List Byte)
    (a b c : Int) (h : Header) (ho : h.ByteOrder = some order) (i : itemSection)
    (cs : contentSection) (n : nameValueSection) (t : timeSection) (p : List Byte) :
    binaryReadInt 4 ⟨order.putInt 4 v ++ rest, a, b, c, h, i, cs, n, t, p⟩
      = (⟨rest, a, b, c, h, i, cs, n, t, p⟩, .ok v) :=
  binaryReadInt4_putInt _ order v rest ho rfl hv

theorem binaryReadBytes_mk (bs rest : List Byte)
    (a b c : Int) (h : Header) (i : itemSection)
    (cs : contentSection) (n : nameValueSection) (t : timeSection) (p : List Byte) :
    binaryReadBytes bs.length ⟨bs ++ rest, a, b, c, h, i, cs, n, t, p⟩
      = (⟨rest, a, b, c, h, i, cs, n, t, p⟩, .ok bs) :=
  binaryReadBytes_append _ bs rest rfl

theorem readField_wire (idx : Nat) (dec : Decoder) (order : ByteOrder) (f : Field) (rest : List Byte)
    (ho : dec.header.ByteOrder = some order) (hr : dec.reader = wireField order f ++ rest)
    (hf : f.onWire) :
    readField idx dec =
      ({ dec with reader := rest, header := { dec.header with Fields := dec.header.Fields.set idx f } },
        none) := by
  obtain ⟨h1, h2, h3⟩ := hf
  obtain ⟨r, a, b, c, h, i, cs, n, t, p⟩ := dec
  simp only at ho hr
  subst hr
  simp only [readField, wireField, wireString, List.append_assoc]
  rw [binaryReadInt4_mk order _ h1 _ _ _ _ _ ho]
  simp only
  rw [binaryReadInt4_mk order _ h2 _ _ _ _ _ ho]
  simp only
  rw [binaryReadInt4_mk order _ h3 _ _ _ _ _ ho]
  simp only [makeLen_length]
  rw [binaryReadBytes_mk]

theorem readFieldsLoop_wire (order : ByteOrder) (fs : List Field) :
    ∀ (pre : List Field) (dec : Decoder) (rest : List Byte),
      dec.header.ByteOrder = some order →
      dec.reader = wireFields order fs ++ rest →
      dec.header.Fields = pre ++ List.replicate fs.length { Name := [], Typ := 0, Offset := 0 } →
      (∀ f ∈ fs, f.onWire) →
      readFieldsLoop fs.length pre.length dec =
        ({ dec with reader := rest, header := { dec.header with Fields := pre ++ fs } }, none) := by
  induction fs with
  | nil =>
    intro pre dec rest _ hr hF _
    simp only [wireFields, List.nil_append] at hr
    simp only [List.length_nil, List.replicate_zero, List.append_nil] at hF
    simp [readFieldsLoop, ← hr, ← hF]
  | cons f fs ih =>
    intro pre dec rest ho hr hF hfs
    simp only [List.length_cons, readFieldsLoop]
    rw [readField_wire pre.length dec order f (wireFields order fs ++ rest) ho
      (by rw [hr, wireFields, List.append_assoc]) (hfs f (List.mem_cons_self _ _))]
    simp only
    have hset : dec.header.Fields.set pre.length f
        = (pre ++ [f]) ++ List.replicate fs.length { Name := [], Typ := 0, Offset := 0 } := by
      rw [hF, List.length_cons, List.replicate_succ]
      simp
    have := ih (pre ++ [f])
      { dec with reader := wireFields order fs ++ rest,
                 header := { dec.header with Fields := dec.header.Fields.set pre.length f } }
      rest ho rfl hset (fun g hg => hfs g (List.mem_cons_of_mem _ hg))
    simp only [List.length_append, List.length_singleton] at this
    rw [this]
    simp

theorem readItemSection_wire (dec : Decoder) (order : ByteOrder) (nextOffset itemSize : Int)
    (name : List Byte) (fields : List Field) (rest : List Byte)
    (ho : dec.header.ByteOrder = some order)
    (hr : dec.reader = wireItemSection order nextOffset itemSize name fields ++ rest)
    (hn : isInt32 nextOffset) (hs : isInt32 itemSize) (hname : isInt32 name.length)
    (hcount : isInt32 fields.length) (hf : ∀ f ∈ fields, f.onWire) :
    readItemSection dec =
      ({ dec with
          reader := rest,
          itemSection := { nextOffset := nextOffset, itemSize := itemSize },
          header := { dec.header with Name := name, Fields := fields } }, none) := by
  obtain ⟨r, a, b, c, h, i, cs, n, t, p⟩ := dec
  simp only at ho hr
  subst hr
  simp only [readItemSection, wireItemSection, wireString, List.append_assoc]
  rw [binaryReadInt4_mk order _ hn _ _ _ _ _ ho]
  simp only
  rw [binaryReadInt4_mk order _ hs _ _ _ _ _ ho]
  simp only
  rw [binaryReadInt4_mk order _ hname _ _ _ _ _ ho]
  simp only [makeLen_length]
  rw [binaryReadBytes_mk]
  simp only [readFields]
  rw [binaryReadInt4_mk order _ hcount _ _ _ _ _ (by simpa using ho)]
  simp only [makeLen_length, List.length_replicate]
  have := readFieldsLoop_wire order fields []
    ⟨wireFields order fields ++ rest, a, b, c,
      { h with Name := name,
               Fields := List.replicate fields.length { Name := [], Typ := 0, Offset := 0 } },
      { nextOffset := nextOffset, itemSize := itemSize }, cs, n, t, p⟩
    rest (by simpa using ho) rfl (by simp) hf
  simp only [List.length_nil, List.nil_append] at this
  rw [this]

theorem binaryReadInt8_mk (order : ByteOrder) (bs : List Byte) (hb : bs.length = 8) (rest : List Byte)
    (a b c : Int) (h : Header) (ho : h.ByteOrder = some order) (i : itemSection)
    (cs : contentSection) (n : nameValueSection) (t : timeSection) (p : List Byte) :
    binaryReadInt 8 ⟨bs ++ rest, a, b, c, h, i, cs, n, t, p⟩
      = (⟨rest, a, b, c, h, i, cs, n, t, p⟩, .ok (toSigned 64 (order.get bs))) :=
  binaryReadInt_append 8 _ order bs rest ho rfl hb

theorem readEndianness_other (dec : Decoder) (b rest : List Byte) (hb : b.length = 8)
    (hr : dec.reader = b ++ rest) (ho : dec.header.ByteOrder = some .LittleEndian)
    (h1 : toSigned 64 (getLE b) ≠ MagicValueLittleEndian)
    (h2 : toSigned 64 (getLE b) ≠ MagicValueBigEndian) :
    readEndianness dec = ({ dec with reader := rest }, some (.error "not a teafile")) := by
  obtain ⟨r, a, b1, c, h, i, cs, n, t, p⟩ := dec
  simp only at ho hr
  subst hr
  simp only [readEndianness]
  rw [binaryReadInt8_mk .LittleEndian b hb _ _ _ _ _ ho]
  simp [ByteOrder.get, h1, h2]

theorem readEndianness_eq (dec : Decoder) (o : ByteOrder) (b rest : List Byte) (hb : b.length = 8)
    (hr : dec.reader = b ++ rest) (ho : dec.header.ByteOrder = some o) :
    readEndianness dec =
      if toSigned 64 (o.get b) = MagicValueLittleEndian then
        ({ dec with reader := rest,
                    header := { dec.header with ByteOrder := some .LittleEndian } }, none)
      else if toSigned 64 (o.get b) = MagicValueBigEndian then
        ({ dec with reader := rest,
                    header := { dec.header with ByteOrder := some .BigEndian } }, none)
      else ({ dec with reader := rest }, some (.error "not a teafile")) := by
  obtain ⟨r, a, b1, c, h, i, cs, n, t, p⟩ := dec
  simp only at ho hr
  subst hr
  simp only [readEndianness]
  rw [binaryReadInt8_mk o b hb _ _ _ _ _ ho]

theorem ioReadFull_nil (n : Nat) (hn : 0 < n) : ioReadFull [] n = ([], .error "EOF") := by
  have : ¬ n ≤ 0 := by omega
  simp [ioReadFull, this]

theorem readItemsStartEnd_nil (dec : Decoder) (hr : dec.reader = []) :
    readItemsStartEnd dec = (dec, some (.error "reading item start: EOF")) := by
  obtain ⟨r, a, b1, c, h, i, cs, n, t, p⟩ := dec
  simp only at hr
  subst hr
  simp only [readItemsStartEnd, binaryReadInt, ioReadFull_nil 8 (by decide), wrapErr]
  rfl

theorem NewEncoder_out (h : Option Header) :
    (NewEncoder [] h).1.w.Flush.out = [0, 5, 8, 2, 4, 10, 14, 13] := by
  have h0 : NewEncoder [] h = NewEncoder [] none := rfl
  rw [h0]
  decide

theorem readHeader_magic_only (h : Header) (o : ByteOrder) (ho : h.ByteOrder = some o) :
    (readHeader (newDecoderState [0, 5, 8, 2, 4, 10, 14, 13] h)).2
      = some (.error "reading item start: EOF") := by
  simp only [readHeader]
  rw [readEndianness_eq (newDecoderState [0, 5, 8, 2, 4, 10, 14, 13] h) o
    [0, 5, 8, 2, 4, 10, 14, 13] [] rfl rfl ho]
  cases o with
  | LittleEndian =>
    have hv : toSigned 64 (ByteOrder.LittleEndian.get [0, 5, 8, 2, 4, 10, 14, 13])
        = MagicValueLittleEndian := by decide
    rw [if_pos hv]
    simp only
    rw [readItemsStartEnd_nil _ rfl]
  | BigEndian =>
    have hv : toSigned 64 (ByteOrder.BigEndian.get [0, 5, 8, 2, 4, 10, 14, 13])
        = MagicValueBigEndian := by decide
    have hne : MagicValueBigEndian ≠ MagicValueLittleEndian := by decide
    rw [hv, if_neg hne, if_pos rfl]
    simp only
    rw [readItemsStartEnd_nil _ rfl]

theorem NewDecoder_of_error (reader : List Byte) (header : Option Header) (g : Header) (f : Fault)
    (h : (readHeader (newDecoderState reader (defaultByteOrder (targetHeader header g)))).2 = some f) :
    (NewDecoder reader header g).decoder = none ∧ (NewDecoder reader header g).err = some f := by
  unfold NewDecoder
  cases hr : readHeader (newDecoderState reader (defaultByteOrder (targetHeader header g))) with
  | mk d e =>
    rw [hr] at h
    simp only at h
    subst h
    exact ⟨rfl, rfl⟩

theorem defaultByteOrder_some (h : Header) : ∃ o, (defaultByteOrder h).ByteOrder = some o := by
  unfold defaultByteOrder
  cases hb : h.ByteOrder with
  | none => exact ⟨.LittleEndian, by simp⟩
  | some o => exact ⟨o, by simp [hb]⟩

theorem readPadding_negative (dec : Decoder) (h : paddingOffset dec < 0) :
    readPadding dec = (dec, some (.panic "runtime error: makeslice: len out of range")) := by
  simp [readPadding, makeLen, h]

theorem binaryReadInt_header (size : Nat) (dec : Decoder) :
    (binaryReadInt size dec).1.header = dec.header := by
  unfold binaryReadInt
  cases ioReadFull dec.reader size with
  | mk r e =>
    cases e with
    | error e => rfl
    | ok bs =>
      cases h : dec.header.ByteOrder <;> simp [h]

theorem readTimeOffsetsLoop_header (k : Nat) :
    ∀ (idx : Nat) (dec : Decoder), (readTimeOffsetsLoop k idx dec).1.header = dec.header := by
  induction k with
  | zero => intro idx dec; rfl
  | succ k ih =>
    intro idx dec
    have hh := binaryReadInt_header 4 dec
    simp only [readTimeOffsetsLoop]
    cases hb : binaryReadInt 4 dec with
    | mk d e =>
      rw [hb] at hh
      cases e with
      | error e => exact hh
      | ok v =>
        simp only
        rw [ih]
        exact hh

theorem readTimeSection_header (dec : Decoder) : (readTimeSection dec).1.header = dec.header := by
  have h1 := binaryReadInt_header 4 dec
  unfold readTimeSection
  cases hb1 : binaryReadInt 4 dec with
  | mk d1 e1 =>
    rw [hb1] at h1
    cases e1 with
    | error e => exact h1
    | ok v1 =>
      simp only
      have h2 := binaryReadInt_header 8
        { d1 with timeSection := { d1.timeSection with nextOffset := v1 } }
      cases hb2 : binaryReadInt 8
          { d1 with timeSection := { d1.timeSection with nextOffset := v1 } } with
      | mk d2 e2 =>
        rw [hb2] at h2
        simp only at h2
        cases e2 with
        | error e => exact h2.trans h1
        | ok v2 =>
          simp only
          have h3 := binaryReadInt_header 8
            { d2 with timeSection := { d2.timeSection with epoch := v2 } }
          cases hb3 : binaryReadInt 8
              { d2 with timeSection := { d2.timeSection with epoch := v2 } } with
          | mk d3 e3 =>
            rw [hb3] at h3
            simp only at h3
            cases e3 with
            | error e => exact h3.trans (h2.trans h1)
            | ok v3 =>
              simp only
              have h4 := binaryReadInt_header 4
                { d3 with timeSection := { d3.timeSection with ticksPerDay := v3 } }
              cases hb4 : binaryReadInt 4
                  { d3 with timeSection := { d3.timeSection with ticksPerDay := v3 } } with
              | mk d4 e4 =>
                rw [hb4] at h4
                simp only at h4
                cases e4 with
                | error e => exact h4.trans (h3.trans (h2.trans h1))
                | ok v4 =>
                  simp only
                  cases hm : makeLen v4 with
                  | error f => exact h4.trans (h3.trans (h2.trans h1))
                  | ok n =>
                    simp only
                    rw [readTimeOffsetsLoop_header]
                    exact h4.trans (h3.trans (h2.trans h1))

theorem readNameValues_count_only (dec : Decoder) (order : ByteOrder) (count : Nat)
    (rest : List Byte) (ho : dec.header.ByteOrder = some order)
    (hr : dec.reader = order.putInt 4 count ++ rest) (hc : isInt32 count)
    (hn : dec.nameValueSection.nameValues = []) :
    readNameValues dec =
      ({ dec with reader := rest,
                  header := { dec.header with
                    NameValues := List.replicate count { Kind := 0, Name := [], Value := .nil } } },
        none) := by
  obtain ⟨r, a, b, c, h, i, cs, n, t, p⟩ := dec
  simp only at ho hr hn
  subst hr
  simp only [readNameValues]
  rw [binaryReadInt4_mk order _ hc _ _ _ _ _ ho]
  simp only [makeLen_length, hn, List.length_nil, readNameValuesLoop]

theorem FieldByName_mem (all : List StructField) (sf : StructField) (h : sf ∈ all) :
    ∃ f, FieldByName all sf.Name = some f ∧ f ∈ all := by
  unfold FieldByName
  cases hf : all.find? (fun f => decide (f.Name = sf.Name)) with
  | none =>
    have := List.find?_eq_none.mp hf sf h
    simp at this
  | some f => exact ⟨f, rfl, List.mem_of_find?_eq_some hf⟩

theorem binaryWriteValue_time (enc : Encoder) (sec : Int) (nsec : Nat) :
    enc.binaryWriteValue (.time sec nsec)
      = ({ enc with w := enc.w.Write (enc.byteOrder.putInt 8 (UnixNano sec nsec)) }, none) :=
  rfl

theorem binaryWriteValue_supported (enc : Encoder) (v : FieldValue) (h : v.supported = true) :
    ∃ e, enc.binaryWriteValue v = (e, none) := by
  cases v <;> simp [FieldValue.supported] at h <;>
    simp [Encoder.binaryWriteValue, Encoder.binaryWriteInt64]

theorem marshalFields_no_timestamp (all : List StructField)
    (hsup : ∀ f ∈ all, f.PkgPath = [] ∧ f.Value.supported = true) :
    ∀ (rest : List StructField) (enc : Encoder),
      (∀ f ∈ rest, f ∈ all) →
      (∀ f ∈ rest, ∀ tf, f.Tag.lookup StructTagName = some tf → marksTimestamp tf = false) →
      ∃ e, marshalFields all rest enc false = (e, false, none) := by
  intro rest
  induction rest with
  | nil => intro enc _ _; exact ⟨enc, rfl⟩
  | cons sf rest ih =>
    intro enc hmem hts
    obtain ⟨f, hf, hfa⟩ := FieldByName_mem all sf (hmem sf (List.mem_cons_self _ _))
    obtain ⟨hp, hv⟩ := hsup f hfa
    obtain ⟨e, he⟩ := binaryWriteValue_supported enc f.Value hv
    have hfound : (match sf.Tag.lookup StructTagName with
        | some tf => if (bytesOf "," ++ StructTagTimestamp).isSuffixOf tf then true else false
        | none => false) = false := by
      cases hl : sf.Tag.lookup StructTagName with
      | none => rfl
      | some tf =>
        have := hts sf (List.mem_cons_self _ _) tf hl
        simp only [marksTimestamp] at this
        simp [this]
    simp only [marshalFields, hfound, hf, hp, he]
    simpa using ih e (fun g hg => hmem g (List.mem_cons_of_mem _ hg))
      (fun g hg => hts g (List.mem_cons_of_mem _ hg))


theorem ioReadFull_ok (r : List Byte) (n : Nat) (r1 bs : List Byte)
    (h : ioReadFull r n = (r1, .ok bs)) : n ≤ r.length ∧ r1 = r.drop n ∧ bs = r.take n := by
  unfold ioReadFull at h
  split_ifs at h with h1 h2
  · simp only [Prod.mk.injEq, Except.ok.injEq] at h
    exact ⟨h1, h.1.symm, h.2.symm⟩
  · simp at h
  · simp at h

theorem ioReadFull_take_ge (r : List Byte) (n m : Nat) (h : n ≤ r.length) (hm : n ≤ m) :
    ioReadFull (r.take m) n = ((r.drop n).take (m - n), .ok (r.take n)) := by
  have h1 : n ≤ (r.take m).length := by
    rw [List.length_take]
    omega
  simp only [ioReadFull, h1, if_true, List.drop_take, List.take_take, Nat.min_eq_left hm]

theorem ioReadFull_take_lt (r : List Byte) (n m : Nat) (h : n ≤ r.length) (hm : m < n) :
    ∃ e, ioReadFull (r.take m) n = ([], .error e) := by
  have h1 : ¬ n ≤ (r.take m).length := by
    rw [List.length_take]
    omega
  simp only [ioReadFull, h1, if_false]
  split_ifs
  · exact ⟨_, rfl⟩
  · exact ⟨_, rfl⟩

theorem binaryReadInt_steady (size : Nat) : SteadyR (binaryReadInt size) := by
  intro dec dec1 v h
  unfold binaryReadInt at h
  cases hio : ioReadFull dec.reader size with
  | mk r1 e =>
    rw [hio] at h
    cases e with
    | error e => simp at h
    | ok bs =>
      obtain ⟨hn, hr1, hbs⟩ := ioReadFull_ok _ _ _ _ hio
      cases ho : dec.header.ByteOrder with
      | none => simp [ho] at h
      | some order =>
        simp only [ho, Prod.mk.injEq, Except.ok.injEq] at h
        obtain ⟨hd, hv⟩ := h
        subst hd
        subst hr1
        have hc : dec.reader.length - (dec.reader.drop size).length = size := by
          rw [List.length_drop]
          omega
        refine ⟨by simp, ?_⟩
        intro m
        simp only [hc]
        constructor
        · intro hm
          simp only [binaryReadInt, Decoder.trunc, ioReadFull_take_ge _ _ _ hn hm, ho, ← hbs, hv]
        · intro hm
          obtain ⟨e, he⟩ := ioReadFull_take_lt dec.reader size m hn hm
          refine ⟨{ dec with reader := [] }, e, ?_⟩
          simp only [binaryReadInt, Decoder.trunc, he]

theorem Steady.bindR {α : Type} (f : Decoder → Decoder × Except Fault α) (hf : SteadyR f)
    (w : Fault → Fault) (hw : ∀ e, ∃ e1, w (.error e) = .error e1)
    (g : α → Decoder → Decoder × Option Fault) (hg : ∀ v, Steady (g v)) :
    Steady (fun dec =>
      match f dec with
      | (d, .error e) => (d, some (w e))
      | (d, .ok v) => g v d) := by
  intro dec dec2 h
  simp only at h
  cases hfd : f dec with
  | mk d1 r =>
    rw [hfd] at h
    cases r with
    | error e => simp at h
    | ok v =>
      simp only at h
      obtain ⟨hl1, h1⟩ := hf dec d1 v hfd
      obtain ⟨hl2, h2⟩ := hg v d1 dec2 h
      refine ⟨by omega, ?_⟩
      intro m
      constructor
      · intro hm
        have := (h1 m).1 (by omega)
        simp only [this]
        have h3 := (h2 (m - (dec.reader.length - d1.reader.length))).1 (by omega)
        rw [h3]
        congr 2
        omega
      · intro hm
        by_cases hc : dec.reader.length - d1.reader.length ≤ m
        · have := (h1 m).1 hc
          simp only [this]
          exact (h2 (m - (dec.reader.length - d1.reader.length))).2 (by omega)
        · obtain ⟨d, e, he⟩ := (h1 m).2 (by omega)
          obtain ⟨e1, he1⟩ := hw e
          exact ⟨d, e1, by simp only [he, he1]⟩

theorem Steady.pure (h : Decoder → Decoder) (h1 : ∀ d m, h (d.trunc m) = (h d).trunc m)
    (h2 : ∀ d, (h d).reader = d.reader) : Steady (fun d => (h d, none)) := by
  intro dec dec1 hd
  simp only [Prod.mk.injEq, and_true] at hd
  subst hd
  refine ⟨by rw [h2], ?_⟩
  intro m
  rw [h2]
  constructor
  · intro _
    simp only [h1, Nat.sub_self, Nat.sub_zero]
  · intro hm
    omega

theorem wrapErr_error (pre : String) : ∀ e, ∃ e1, wrapErr pre (.error e) = .error e1 :=
  fun e => ⟨pre ++ e, rfl⟩

theorem SteadyR.after_update {α : Type} (f : Decoder → Decoder × Except Fault α) (hf : SteadyR f)
    (h : Decoder → Decoder) (h1 : ∀ d m, h (d.trunc m) = (h d).trunc m)
    (h2 : ∀ d, (h d).reader = d.reader) : SteadyR (fun d => f (h d)) := by
  intro dec dec1 v hd
  obtain ⟨hl, hm⟩ := hf (h dec) dec1 v hd
  rw [h2] at hl hm
  refine ⟨hl, ?_⟩
  intro m
  simp only [h1]
  exact hm m

theorem Steady.of_bindR {α : Type} {F : Decoder → Decoder × Option Fault}
    (f : Decoder → Decoder × Except Fault α) (hf : SteadyR f) (w : Fault → Fault)
    (g : α → Decoder → Decoder × Option Fault)
    (he : ∀ dec d e, f dec = (d, .error e) → F dec = (d, some (w e)))
    (ho : ∀ dec d v, f dec = (d, .ok v) → F dec = g v d)
    (hw : ∀ e, ∃ e1, w (.error e) = .error e1)
    (hg : ∀ v, Steady (g v)) : Steady F := by
  have hF : F = fun dec =>
      match f dec with
      | (d, .error e) => (d, some (w e))
      | (d, .ok v) => g v d := by
    funext dec
    cases hfd : f dec with
    | mk d r =>
      cases r with
      | error e => exact he dec d e hfd
      | ok v => exact ho dec d v hfd
  rw [hF]
  exact Steady.bindR f hf w hw g hg

theorem Steady.of_seq {F : Decoder → Decoder × Option Fault}
    (f : Decoder → Decoder × Option Fault) (hf : Steady f)
    (g : Decoder → Decoder × Option Fault)
    (he : ∀ dec d e, f dec = (d, some e) → F dec = (d, some e))
    (ho : ∀ dec d, f dec = (d, none) → F dec = g d)
    (hg : Steady g) : Steady F := by
  intro dec dec2 h
  cases hfd : f dec with
  | mk d1 r =>
    cases r with
    | some e =>
      rw [he dec d1 e hfd] at h
      simp at h
    | none =>
      rw [ho dec d1 hfd] at h
      obtain ⟨hl1, h1⟩ := hf dec d1 hfd
      obtain ⟨hl2, h2⟩ := hg d1 dec2 h
      refine ⟨by omega, ?_⟩
      intro m
      constructor
      · intro hm
        have h3 := (h1 m).1 (by omega)
        rw [ho _ _ h3]
        have h4 := (h2 (m - (dec.reader.length - d1.reader.length))).1 (by omega)
        rw [h4]
        congr 2
        omega
      · intro hm
        by_cases hc : dec.reader.length - d1.reader.length ≤ m
        · have h3 := (h1 m).1 hc
          rw [ho _ _ h3]
          exact (h2 (m - (dec.reader.length - d1.reader.length))).2 (by omega)
        · obtain ⟨d, e, hde⟩ := (h1 m).2 (by omega)
          exact ⟨d, e, he _ _ _ hde⟩

theorem Steady.of_except {β : Type} {F : Decoder → Decoder × Option Fault}
    (x : Decoder → Except Fault β) (hx : ∀ d m, x (d.trunc m) = x d)
    (g : β → Decoder → Decoder × Option Fault)
    (he : ∀ dec f, x dec = .error f → ∃ d, F dec = (d, some f))
    (ho : ∀ dec n, x dec = .ok n → F dec = g n dec)
    (hg : ∀ n, Steady (g n)) : Steady F := by
  intro dec dec2 h
  cases hxd : x dec with
  | error f =>
    obtain ⟨d, hd⟩ := he dec f hxd
    rw [hd] at h
    simp at h
  | ok n =>
    rw [ho dec n hxd] at h
    obtain ⟨hl, h1⟩ := hg n dec dec2 h
    refine ⟨hl, ?_⟩
    intro m
    have hxm : x (dec.trunc m) = .ok n := by rw [hx, hxd]
    rw [ho _ _ hxm]
    exact h1 m

theorem Steady.of_set {F : Decoder → Decoder × Option Fault}
    (s : Decoder → Except Fault Decoder)
    (hs : ∀ d d1 m, s d = .ok d1 → s (d.trunc m) = .ok (d1.trunc m))
    (hr : ∀ d d1, s d = .ok d1 → d1.reader = d.reader)
    (g : Decoder → Decoder × Option Fault)
    (he : ∀ dec f, s dec = .error f → ∃ d, F dec = (d, some f))
    (ho : ∀ dec d, s dec = .ok d → F dec = g d)
    (hg : Steady g) : Steady F := by
  intro dec dec2 h
  cases hsd : s dec with
  | error f =>
    obtain ⟨d, hd⟩ := he dec f hsd
    rw [hd] at h
    simp at h
  | ok d1 =>
    rw [ho dec d1 hsd] at h
    obtain ⟨hl, h1⟩ := hg d1 dec2 h
    have hrd := hr dec d1 hsd
    rw [hrd] at hl h1
    refine ⟨hl, ?_⟩
    intro m
    rw [ho _ _ (hs dec d1 m hsd)]
    exact h1 m

theorem Steady.comp_pure (f : Decoder → Decoder × Option Fault) (hf : Steady f)
    (h : Decoder → Decoder) (h1 : ∀ d m, h (d.trunc m) = (h d).trunc m)
    (h2 : ∀ d, (h d).reader = d.reader) : Steady (fun d => f (h d)) := by
  intro dec dec1 hd
  obtain ⟨hl, hm⟩ := hf (h dec) dec1 hd
  rw [h2] at hl hm
  refine ⟨hl, ?_⟩
  intro m
  simp only [h1]
  exact hm m

theorem Steady.fail (f : Fault) : Steady (fun d => (d, some f)) := by
  intro dec dec1 h
  simp at h

theorem Steady.id : Steady (fun d => (d, none)) :=
  Steady.pure (fun d => d) (fun _ _ => rfl) (fun _ => rfl)

theorem Steady.dep {ι : Type} (k : Decoder → ι) (hk : ∀ d m, k (d.trunc m) = k d)
    (F : ι → Decoder → Decoder × Option Fault) (hF : ∀ i, Steady (F i)) :
    Steady (fun d => F (k d) d) := by
  intro dec dec1 h
  obtain ⟨hl, hm⟩ := hF (k dec) dec dec1 h
  refine ⟨hl, ?_⟩
  intro m
  simp only [hk]
  exact hm m

theorem readSectionCount_steady : Steady readSectionCount := by
  apply Steady.of_bindR (binaryReadInt 8) (binaryReadInt_steady 8)
  case he => intro dec d e h; simp only [readSectionCount, h]; rfl
  case ho => intro dec d v h; simp only [readSectionCount, h]; rfl
  case hw => exact wrapErr_error _
  case hg => intro v; exact Steady.pure _ (fun _ _ => rfl) (fun _ => rfl)

theorem readItemsStartEnd_steady : Steady readItemsStartEnd := by
  apply Steady.of_bindR (binaryReadInt 8) (binaryReadInt_steady 8)
  case he => intro dec d e h; simp only [readItemsStartEnd, h]; rfl
  case ho => intro dec d v h; simp only [readItemsStartEnd, h]; rfl
  case hw => exact wrapErr_error _
  case hg =>
    intro v
    apply Steady.of_bindR (fun d => binaryReadInt 8 { d with itemStart := v })
      (SteadyR.after_update _ (binaryReadInt_steady 8) _ (fun _ _ => rfl) (fun _ => rfl))
    case he => intro dec d e h; simp only [h]; rfl
    case ho => intro dec d v h; simp only [h]; rfl
    case hw => exact wrapErr_error _
    case hg => intro v; exact Steady.pure _ (fun _ _ => rfl) (fun _ => rfl)
theorem binaryReadUint_steady (size : Nat) : SteadyR (binaryReadUint size) := by
  intro dec dec1 v h
  unfold binaryReadUint at h
  cases hio : ioReadFull dec.reader size with
  | mk r1 e =>
    rw [hio] at h
    cases e with
    | error e => simp at h
    | ok bs =>
      obtain ⟨hn, hr1, hbs⟩ := ioReadFull_ok _ _ _ _ hio
      cases ho : dec.header.ByteOrder with
      | none => simp [ho] at h
      | some order =>
        simp only [ho, Prod.mk.injEq, Except.ok.injEq] at h
        obtain ⟨hd, hv⟩ := h
        subst hd
        subst hr1
        have hc : dec.reader.length - (dec.reader.drop size).length = size := by
          rw [List.length_drop]
          omega
        refine ⟨by simp, ?_⟩
        intro m
        simp only [hc]
        constructor
        · intro hm
          simp only [binaryReadUint, Decoder.trunc, ioReadFull_take_ge _ _ _ hn hm, ho, ← hbs, hv]
        · intro hm
          obtain ⟨e, he⟩ := ioReadFull_take_lt dec.reader size m hn hm
          refine ⟨{ dec with reader := [] }, e, ?_⟩
          simp only [binaryReadUint, Decoder.trunc, he]

theorem binaryReadBytes_steady (n : Nat) : SteadyR (binaryReadBytes n) := by
  intro dec dec1 v h
  unfold binaryReadBytes at h
  cases hio : ioReadFull dec.reader n with
  | mk r1 e =>
    rw [hio] at h
    cases e with
    | error e => simp at h
    | ok bs =>
      obtain ⟨hn, hr1, hbs⟩ := ioReadFull_ok _ _ _ _ hio
      simp only [Prod.mk.injEq, Except.ok.injEq] at h
      obtain ⟨hd, hv⟩ := h
      subst hd
      subst hr1
      have hc : dec.reader.length - (dec.reader.drop n).length = n := by
        rw [List.length_drop]
        omega
      refine ⟨by simp, ?_⟩
      intro m
      simp only [hc]
      constructor
      · intro hm
        simp only [binaryReadBytes, Decoder.trunc, ioReadFull_take_ge _ _ _ hn hm, ← hbs, hv]
      · intro hm
        obtain ⟨e, he⟩ := ioReadFull_take_lt dec.reader n m hn hm
        refine ⟨{ dec with reader := [] }, e, ?_⟩
        simp only [binaryReadBytes, Decoder.trunc, he]

theorem readEndianness_steady : Steady readEndianness := by
  apply Steady.of_bindR (binaryReadInt 8) (binaryReadInt_steady 8)
  case he => intro dec d e h; simp only [readEndianness, h]; rfl
  case ho => intro dec d v h; simp only [readEndianness, h]; rfl
  case hw => exact wrapErr_error _
  case hg =>
    intro mv
    by_cases h1 : mv = MagicValueLittleEndian
    · simp only [h1, if_true]
      exact Steady.pure _ (fun _ _ => rfl) (fun _ => rfl)
    · by_cases h2 : mv = MagicValueBigEndian
      · simp only [h1, h2, if_true, if_false]
        exact Steady.pure _ (fun _ _ => rfl) (fun _ => rfl)
      · simp only [h1, h2, if_false]
        exact Steady.fail _

theorem readField_steady (idx : Nat) : Steady (readField idx) := by
  apply Steady.of_bindR (binaryReadInt 4) (binaryReadInt_steady 4)
  case he => intro dec d e h; simp only [readField, h]; rfl
  case ho => intro dec d v h; simp only [readField, h]; rfl
  case hw => exact wrapErr_error _
  case hg =>
    intro fieldType
    apply Steady.of_bindR (binaryReadInt 4) (binaryReadInt_steady 4)
    case he => intro dec d e h; simp only [h]; rfl
    case ho => intro dec d v h; simp only [h]; rfl
    case hw => exact wrapErr_error _
    case hg =>
      intro offset
      apply Steady.of_bindR (binaryReadInt 4) (binaryReadInt_steady 4)
      case he => intro dec d e h; simp only [h]; rfl
      case ho => intro dec d v h; simp only [h]; rfl
      case hw => exact wrapErr_error _
      case hg =>
        intro nameLen
        apply Steady.of_except (fun _ => makeLen nameLen) (fun _ _ => rfl)
        case he => intro dec f h; simp only [h]; exact ⟨_, rfl⟩
        case ho => intro dec n h; simp only [h]; rfl
        case hg =>
          intro n
          apply Steady.of_bindR (binaryReadBytes n) (binaryReadBytes_steady n)
          case he => intro dec d e h; simp only [h]; rfl
          case ho => intro dec d v h; simp only [h]; rfl
          case hw => exact wrapErr_error _
          case hg => intro name; exact Steady.pure _ (fun _ _ => rfl) (fun _ => rfl)

theorem readFieldsLoop_steady (k : Nat) : ∀ idx, Steady (readFieldsLoop k idx) := by
  induction k with
  | zero =>
    intro idx
    exact Steady.id
  | succ k ih =>
    intro idx
    apply Steady.of_seq (readField idx) (readField_steady idx)
    case he => intro dec d e h; simp only [readFieldsLoop, h]
    case ho => intro dec d h; simp only [readFieldsLoop, h]; rfl
    case hg => exact ih (idx + 1)

theorem readFields_steady : Steady readFields := by
  apply Steady.of_bindR (binaryReadInt 4) (binaryReadInt_steady 4)
  case he => intro dec d e h; simp only [readFields, h]; rfl
  case ho => intro dec d v h; simp only [readFields, h]; rfl
  case hw => exact wrapErr_error _
  case hg =>
    intro fieldsCount
    apply Steady.of_except (fun _ => makeLen fieldsCount) (fun _ _ => rfl)
    case he => intro dec f h; simp only [h]; exact ⟨_, rfl⟩
    case ho => intro dec n h; simp only [h]; rfl
    case hg =>
      intro n
      exact Steady.comp_pure _ (readFieldsLoop_steady _ 0)
        (fun d => { d with header := { d.header with
          Fields := List.replicate n { Name := [], Typ := 0, Offset := 0 } } })
        (fun _ _ => rfl) (fun _ => rfl)

theorem readItemSection_steady : Steady readItemSection := by
  apply Steady.of_bindR (binaryReadInt 4) (binaryReadInt_steady 4)
  case he => intro dec d e h; simp only [readItemSection, h]; rfl
  case ho => intro dec d v h; simp only [readItemSection, h]; rfl
  case hw => exact wrapErr_error _
  case hg =>
    intro v
    apply Steady.of_bindR
      (fun d => binaryReadInt 4 { d with itemSection := { d.itemSection with nextOffset := v } })
      (SteadyR.after_update _ (binaryReadInt_steady 4) _ (fun _ _ => rfl) (fun _ => rfl))
    case he => intro dec d e h; simp only [h]; rfl
    case ho => intro dec d v h; simp only [h]; rfl
    case hw => exact wrapErr_error _
    case hg =>
      intro v
      apply Steady.of_bindR
        (fun d => binaryReadInt 4 { d with itemSection := { d.itemSection with itemSize := v } })
        (SteadyR.after_update _ (binaryReadInt_steady 4) _ (fun _ _ => rfl) (fun _ => rfl))
      case he => intro dec d e h; simp only [h]; rfl
      case ho => intro dec d v h; simp only [h]; rfl
      case hw => exact wrapErr_error _
      case hg =>
        intro nameLen
        apply Steady.of_except (fun _ => makeLen nameLen) (fun _ _ => rfl)
        case he => intro dec f h; simp only [h]; exact ⟨_, rfl⟩
        case ho => intro dec n h; simp only [h]; rfl
        case hg =>
          intro n
          apply Steady.of_bindR (binaryReadBytes n) (binaryReadBytes_steady n)
          case he => intro dec d e h; simp only [h]; rfl
          case ho => intro dec d v h; simp only [h]; rfl
          case hw => exact wrapErr_error _
          case hg =>
            intro name
            apply Steady.of_seq
              (fun d => readFields { d with header := { d.header with Name := name } })
              (Steady.comp_pure _ readFields_steady _ (fun _ _ => rfl) (fun _ => rfl))
            case he => intro dec d e h; simp only [h]
            case ho => intro dec d h; simp only [h]; rfl
            case hg => exact Steady.id

theorem readContentSection_steady : Steady readContentSection := by
  apply Steady.of_bindR (binaryReadInt 4) (binaryReadInt_steady 4)
  case he => intro dec d e h; simp only [readContentSection, h]; rfl
  case ho => intro dec d v h; simp only [readContentSection, h]; rfl
  case hw => exact wrapErr_error _
  case hg =>
    intro v
    apply Steady.of_bindR
      (fun d => binaryReadInt 4 { d with contentSection := { d.contentSection with nextOffset := v } })
      (SteadyR.after_update _ (binaryReadInt_steady 4) _ (fun _ _ => rfl) (fun _ => rfl))
    case he => intro dec d e h; simp only [h]; rfl
    case ho => intro dec d v h; simp only [h]; rfl
    case hw => exact wrapErr_error _
    case hg =>
      intro nameLen
      apply Steady.of_except (fun _ => makeLen nameLen) (fun _ _ => rfl)
      case he => intro dec f h; simp only [h]; exact ⟨_, rfl⟩
      case ho => intro dec n h; simp only [h]; rfl
      case hg =>
        intro n
        apply Steady.of_bindR (binaryReadBytes n) (binaryReadBytes_steady n)
        case he => intro dec d e h; simp only [h]; rfl
        case ho => intro dec d v h; simp only [h]; rfl
        case hw => exact wrapErr_error _
        case hg => intro name; exact Steady.pure _ (fun _ _ => rfl) (fun _ => rfl)

theorem setNameValue_trunc (idx : Nat) (f : NameValue → NameValue) (d d1 : Decoder) (m : Nat)
    (h : setNameValue idx f d = .ok d1) : setNameValue idx f (d.trunc m) = .ok (d1.trunc m) := by
  unfold setNameValue at h ⊢
  simp only [Decoder.trunc]
  split at h
  · cases h
  · simp only [Except.ok.injEq] at h ⊢
    subst h
    rfl

theorem setNameValue_reader (idx : Nat) (f : NameValue → NameValue) (d d1 : Decoder)
    (h : setNameValue idx f d = .ok d1) : d1.reader = d.reader := by
  unfold setNameValue at h
  split at h
  · cases h
  · simp only [Except.ok.injEq] at h
    subst h
    rfl

theorem readNameValueValue_steady (idx : Nat) (kind : Int) :
    Steady (readNameValueValue idx kind) := by
  by_cases h1 : kind = 1
  · apply Steady.of_bindR (binaryReadInt 4) (binaryReadInt_steady 4)
    · intro dec d e h; simp only [readNameValueValue, h1, if_true, h]; rfl
    · intro dec d v h; simp only [readNameValueValue, h1, if_true, h]; rfl
    · exact wrapErr_error _
    ·
      intro i32
      apply Steady.of_set (setNameValue idx (fun nv => { nv with Value := .int32 i32 }))
        (setNameValue_trunc _ _) (setNameValue_reader _ _)
      · intro dec f h; simp only [h]; exact ⟨_, rfl⟩
      · intro dec d h; simp only [h]; rfl
      · exact Steady.id
  · by_cases h2 : kind = 2
    · apply Steady.of_bindR (binaryReadUint 8) (binaryReadUint_steady 8)
      · intro dec d e h; simp only [readNameValueValue, h1, h2, if_true, if_false, h]; rfl
      · intro dec d v h; simp only [readNameValueValue, h1, h2, if_true, if_false, h]; rfl
      · exact wrapErr_error _
      ·
        intro f64
        apply Steady.of_set (setNameValue idx (fun nv => { nv with Value := .float64 f64 }))
          (setNameValue_trunc _ _) (setNameValue_reader _ _)
        · intro dec f h; simp only [h]; exact ⟨_, rfl⟩
        · intro dec d h; simp only [h]; rfl
        · exact Steady.id
    · by_cases h3 : kind = 3
      · apply Steady.of_bindR (binaryReadInt 4) (binaryReadInt_steady 4)
        ·
          intro dec d e h
          simp only [readNameValueValue, h1, h2, h3, if_true, if_false, h]
          rfl
        ·
          intro dec d v h
          simp only [readNameValueValue, h1, h2, h3, if_true, if_false, h]
          rfl
        · exact wrapErr_error _
        ·
          intro nameLen
          apply Steady.of_except (fun _ => makeLen nameLen) (fun _ _ => rfl)
          · intro dec f h; simp only [h]; exact ⟨_, rfl⟩
          · intro dec n h; simp only [h]; rfl
          ·
            intro n
            apply Steady.of_bindR (binaryReadBytes n) (binaryReadBytes_steady n)
            · intro dec d e h; simp only [h]; rfl
            · intro dec d v h; simp only [h]; rfl
            · exact wrapErr_error _
            ·
              intro name
              apply Steady.of_set (setNameValue idx (fun nv => { nv with Value := .bytes name }))
                (setNameValue_trunc _ _) (setNameValue_reader _ _)
              · intro dec f h; simp only [h]; exact ⟨_, rfl⟩
              · intro dec d h; simp only [h]; rfl
              · exact Steady.id
      · have : readNameValueValue idx kind = fun d => (d, none) := by
          funext d
          simp only [readNameValueValue, h1, h2, h3, if_false]
        rw [this]
        exact Steady.id

theorem readNameValue_steady (idx : Nat) : Steady (readNameValue idx) := by
  apply Steady.of_bindR (binaryReadInt 4) (binaryReadInt_steady 4)
  case he => intro dec d e h; simp only [readNameValue, h]; rfl
  case ho => intro dec d v h; simp only [readNameValue, h]; rfl
  case hw => exact wrapErr_error _
  case hg =>
    intro nameLen
    apply Steady.of_except (fun _ => makeLen nameLen) (fun _ _ => rfl)
    case he => intro dec f h; simp only [h]; exact ⟨_, rfl⟩
    case ho => intro dec n h; simp only [h]; rfl
    case hg =>
      intro n
      apply Steady.of_bindR (binaryReadBytes n) (binaryReadBytes_steady n)
      case he => intro dec d e h; simp only [h]; rfl
      case ho => intro dec d v h; simp only [h]; rfl
      case hw => exact wrapErr_error _
      case hg =>
        intro name
        apply Steady.of_set (setNameValue idx (fun nv => { nv with Name := name }))
          (setNameValue_trunc _ _) (setNameValue_reader _ _)
        case he => intro dec f h; simp only [h]; exact ⟨_, rfl⟩
        case ho => intro dec d h; simp only [h]; rfl
        case hg =>
          apply Steady.of_bindR (binaryReadInt 4) (binaryReadInt_steady 4)
          case he => intro dec d e h; simp only [h]; rfl
          case ho => intro dec d v h; simp only [h]; rfl
          case hw => exact wrapErr_error _
          case hg =>
            intro kind
            apply Steady.of_set (setNameValue idx (fun nv => { nv with Kind := kind }))
              (setNameValue_trunc _ _) (setNameValue_reader _ _)
            case he => intro dec f h; simp only [h]; exact ⟨_, rfl⟩
            case ho => intro dec d h; simp only [h]; rfl
            case hg => exact readNameValueValue_steady idx kind

theorem readNameValuesLoop_steady (k : Nat) : ∀ idx, Steady (readNameValuesLoop k idx) := by
  induction k with
  | zero =>
    intro idx
    exact Steady.id
  | succ k ih =>
    intro idx
    apply Steady.of_seq (readNameValue idx) (readNameValue_steady idx)
    case he => intro dec d e h; simp only [readNameValuesLoop, h]
    case ho => intro dec d h; simp only [readNameValuesLoop, h]; rfl
    case hg => exact ih (idx + 1)

theorem readNameValues_steady : Steady readNameValues := by
  apply Steady.of_bindR (binaryReadInt 4) (binaryReadInt_steady 4)
  case he => intro dec d e h; simp only [readNameValues, h]; rfl
  case ho => intro dec d v h; simp only [readNameValues, h]; rfl
  case hw => exact wrapErr_error _
  case hg =>
    intro count
    apply Steady.of_except (fun _ => makeLen count) (fun _ _ => rfl)
    case he => intro dec f h; simp only [h]; exact ⟨_, rfl⟩
    case ho => intro dec n h; simp only [h]; rfl
    case hg =>
      intro n
      exact Steady.dep (fun d => d.nameValueSection.nameValues.length) (fun _ _ => rfl)
        (fun k d => readNameValuesLoop k 0
          { d with header := { d.header with
            NameValues := List.replicate n { Kind := 0, Name := [], Value := .nil } } })
        (fun k => Steady.comp_pure _ (readNameValuesLoop_steady k 0) _
          (fun _ _ => rfl) (fun _ => rfl))

theorem readNameValueSection_steady : Steady readNameValueSection := by
  apply Steady.of_bindR (binaryReadInt 4) (binaryReadInt_steady 4)
  case he => intro dec d e h; simp only [readNameValueSection, h]; rfl
  case ho => intro dec d v h; simp only [readNameValueSection, h]; rfl
  case hw => exact wrapErr_error _
  case hg =>
    intro v
    apply Steady.of_seq
      (fun d => readNameValues
        { d with nameValueSection := { d.nameValueSection with nextOffset := v } })
      (Steady.comp_pure _ readNameValues_steady _ (fun _ _ => rfl) (fun _ => rfl))
    case he => intro dec d e h; simp only [h]
    case ho => intro dec d h; simp only [h]; rfl
    case hg => exact Steady.id

theorem readTimeOffsetsLoop_steady (k : Nat) : ∀ idx, Steady (readTimeOffsetsLoop k idx) := by
  induction k with
  | zero =>
    intro idx
    exact Steady.id
  | succ k ih =>
    intro idx
    apply Steady.of_bindR (binaryReadInt 4) (binaryReadInt_steady 4)
    case he => intro dec d e h; simp only [readTimeOffsetsLoop, h]; rfl
    case ho => intro dec d v h; simp only [readTimeOffsetsLoop, h]; rfl
    case hw => exact wrapErr_error _
    case hg =>
      intro v
      exact Steady.comp_pure _ (ih (idx + 1))
        (fun d => { d with timeSection := { d.timeSection with
          fieldOffsets := d.timeSection.fieldOffsets.set idx v } })
        (fun _ _ => rfl) (fun _ => rfl)

theorem readTimeSection_steady : Steady readTimeSection := by
  apply Steady.of_bindR (binaryReadInt 4) (binaryReadInt_steady 4)
  case he => intro dec d e h; simp only [readTimeSection, h]; rfl
  case ho => intro dec d v h; simp only [readTimeSection, h]; rfl
  case hw => exact wrapErr_error _
  case hg =>
    intro v
    apply Steady.of_bindR
      (fun d => binaryReadInt 8 { d with timeSection := { d.timeSection with nextOffset := v } })
      (SteadyR.after_update _ (binaryReadInt_steady 8) _ (fun _ _ => rfl) (fun _ => rfl))
    case he => intro dec d e h; simp only [h]; rfl
    case ho => intro dec d v h; simp only [h]; rfl
    case hw => exact wrapErr_error _
    case hg =>
      intro v
      apply Steady.of_bindR
        (fun d => binaryReadInt 8 { d with timeSection := { d.timeSection with epoch := v } })
        (SteadyR.after_update _ (binaryReadInt_steady 8) _ (fun _ _ => rfl) (fun _ => rfl))
      case he => intro dec d e h; simp only [h]; rfl
      case ho => intro dec d v h; simp only [h]; rfl
      case hw => exact wrapErr_error _
      case hg =>
        intro v
        apply Steady.of_bindR
          (fun d => binaryReadInt 4
            { d with timeSection := { d.timeSection with ticksPerDay := v } })
          (SteadyR.after_update _ (binaryReadInt_steady 4) _ (fun _ _ => rfl) (fun _ => rfl))
        case he => intro dec d e h; simp only [h]; rfl
        case ho => intro dec d v h; simp only [h]; rfl
        case hw => exact wrapErr_error _
        case hg =>
          intro v
          apply Steady.of_except (fun _ => makeLen v) (fun _ _ => rfl)
          case he => intro dec f h; simp only [h]; exact ⟨_, rfl⟩
          case ho => intro dec n h; simp only [h]; rfl
          case hg =>
            intro n
            exact Steady.comp_pure _ (readTimeOffsetsLoop_steady _ 0)
              (fun d => { d with timeSection :=
                { nextOffset := d.timeSection.nextOffset, epoch := d.timeSection.epoch,
                  ticksPerDay := d.timeSection.ticksPerDay, fieldsCount := v,
                  fieldOffsets := List.replicate n 0 } })
              (fun _ _ => rfl) (fun _ => rfl)

theorem readSection_steady (id : Int) : Steady (readSection id) := by
  unfold readSection
  by_cases h1 : id = SectionIDItem
  · simp only [h1, if_true]
    exact readItemSection_steady
  · by_cases h2 : id = SectionIDContent
    · simp only [h1, h2, if_true, if_false]
      exact readContentSection_steady
    · by_cases h3 : id = SectionIDNameValue
      · simp only [h1, h2, h3, if_true, if_false]
        exact readNameValueSection_steady
      · by_cases h4 : id = SectionIDTime
        · simp only [h1, h2, h3, h4, if_true, if_false]
          exact readTimeSection_steady
        · simp only [h1, h2, h3, h4, if_false]
          exact Steady.id

theorem readSectionsLoop_steady (k : Nat) : Steady (readSectionsLoop k) := by
  induction k with
  | zero => exact Steady.id
  | succ k ih =>
    apply Steady.of_bindR (binaryReadInt 4) (binaryReadInt_steady 4)
    case he => intro dec d e h; simp only [readSectionsLoop, h]; rfl
    case ho => intro dec d v h; simp only [readSectionsLoop, h]; rfl
    case hw => exact wrapErr_error _
    case hg =>
      intro id
      apply Steady.of_seq (readSection id) (readSection_steady id)
      case he => intro dec d e h; simp only [h]
      case ho => intro dec d h; simp only [h]; rfl
      case hg => exact ih

theorem readSections_steady : Steady readSections :=
  Steady.dep (fun d => d.sectionCount.toNat) (fun _ _ => rfl) readSectionsLoop
    readSectionsLoop_steady

theorem readPadding_steady : Steady readPadding := by
  apply Steady.of_except (fun d => makeLen (paddingOffset d)) (fun _ _ => rfl)
  case he => intro dec f h; simp only [readPadding, h]; exact ⟨_, rfl⟩
  case ho => intro dec n h; simp only [readPadding, h]; rfl
  case hg =>
    intro n
    apply Steady.of_bindR
      (fun d => binaryReadBytes n { d with padding := List.replicate n 0 })
      (SteadyR.after_update _ (binaryReadBytes_steady n) _ (fun _ _ => rfl) (fun _ => rfl))
    case he => intro dec d e h; simp only [h]; rfl
    case ho => intro dec d v h; simp only [h]; rfl
    case hw => exact wrapErr_error _
    case hg => intro bs; exact Steady.pure _ (fun _ _ => rfl) (fun _ => rfl)

theorem readHeader_steady : Steady readHeader := by
  apply Steady.of_seq readEndianness readEndianness_steady
  case he => intro dec d e h; simp only [readHeader, h]
  case ho => intro dec d h; simp only [readHeader, h]; rfl
  case hg =>
    apply Steady.of_seq readItemsStartEnd readItemsStartEnd_steady
    case he => intro dec d e h; simp only [h]
    case ho => intro dec d h; simp only [h]; rfl
    case hg =>
      apply Steady.of_seq readSectionCount readSectionCount_steady
      case he => intro dec d e h; simp only [h]
      case ho => intro dec d h; simp only [h]; rfl
      case hg =>
        apply Steady.of_seq readSections readSections_steady
        case he => intro dec d e h; simp only [h]
        case ho => intro dec d h; simp only [h]; rfl
        case hg =>
          apply Steady.of_seq readPadding readPadding_steady
          case he => intro dec d e h; simp only [h]
          case ho => intro dec d h; simp only [h]; rfl
          case hg => exact Steady.id

theorem newDecoderState_trunc (s : List Byte) (h : Header) (m : Nat) :
    newDecoderState (s.take m) h = (newDecoderState s h).trunc m := rfl

theorem NewDecoder_truncated (s : List Byte) (header : Option Header) (g : Header) (p : List Byte)
    (hs : (NewDecoder s header g).err = none) (hp : p <+: s)
    (hlt : p.length < s.length - (NewDecoder s header g).reader.length) :
    (NewDecoder p header g).decoder = none ∧
    ∃ e, (NewDecoder p header g).err = some (.error e) := by
  have hpe : p = s.take p.length := List.prefix_iff_eq_take.mp hp
  cases hr : readHeader (newDecoderState s (defaultByteOrder (targetHeader header g))) with
  | mk d r =>
    cases r with
    | some f =>
      simp [NewDecoder, hr] at hs
    | none =>
      have hrd : (NewDecoder s header g).reader = d.reader := by
        simp [NewDecoder, hr]
      rw [hrd] at hlt
      obtain ⟨_, hm⟩ := readHeader_steady _ _ hr
      obtain ⟨d1, e, he⟩ := (hm p.length).2 (by simpa [newDecoderState] using hlt)
      rw [← newDecoderState_trunc, ← hpe] at he
      have := NewDecoder_of_error p header g (.error e) (by rw [he])
      exact ⟨this.1, e, this.2⟩
theorem binaryReadInt8_putInt (order : ByteOrder) (v : Int) (hv : isInt64 v) (rest : List Byte)
    (a b c : Int) (h : Header) (ho : h.ByteOrder = some order) (i : itemSection)
    (cs : contentSection) (n : nameValueSection) (t : timeSection) (p : List Byte) :
    binaryReadInt 8 ⟨order.putInt 8 v ++ rest, a, b, c, h, i, cs, n, t, p⟩
      = (⟨rest, a, b, c, h, i, cs, n, t, p⟩, .ok v) := by
  rw [binaryReadInt8_mk order _ (putInt_length _ _ _) rest a b c h ho]
  have := toSigned_get_putInt8 order v hv
  simp only [Nat.reduceMul] at this
  rw [this]

theorem readContentSection_wire (dec : Decoder) (order : ByteOrder) (nextOffset : Int)
    (description rest : List Byte) (ho : dec.header.ByteOrder = some order)
    (hr : dec.reader = order.putInt 4 nextOffset ++ wireString order description ++ rest)
    (hn : isInt32 nextOffset) (hd : isInt32 description.length) :
    readContentSection dec =
      ({ dec with
          reader := rest,
          contentSection := { nextOffset := nextOffset },
          header := { dec.header with Description := description } }, none) := by
  obtain ⟨r, a, b, c, h, i, cs, n, t, p⟩ := dec
  simp only at ho hr
  subst hr
  simp only [readContentSection, wireString, List.append_assoc]
  rw [binaryReadInt4_mk order _ hn _ _ _ _ _ ho]
  simp only
  rw [binaryReadInt4_mk order _ hd _ _ _ _ _ ho]
  simp only [makeLen_length]
  rw [binaryReadBytes_mk]

theorem readTimeOffsetsLoop_wire (order : ByteOrder) (os : List Int) :
    ∀ (pre : List Int) (dec : Decoder) (rest : List Byte),
      dec.header.ByteOrder = some order →
      dec.reader = wireOffsets order os ++ rest →
      dec.timeSection.fieldOffsets = pre ++ List.replicate os.length 0 →
      (∀ o ∈ os, isInt32 o) →
      readTimeOffsetsLoop os.length pre.length dec =
        ({ dec with reader := rest,
                    timeSection := { dec.timeSection with fieldOffsets := pre ++ os } }, none) := by
  induction os with
  | nil =>
    intro pre dec rest _ hr hF _
    simp only [wireOffsets, List.nil_append] at hr
    simp only [List.length_nil, List.replicate_zero, List.append_nil] at hF
    simp [readTimeOffsetsLoop, ← hr, ← hF]
  | cons o os ih =>
    intro pre dec rest ho hr hF hos
    obtain ⟨r, a, b, c, h, i, cs, n, t, p⟩ := dec
    simp only at ho hr hF
    subst hr
    simp only [List.length_cons, readTimeOffsetsLoop, wireOffsets, List.append_assoc]
    rw [binaryReadInt4_mk order _ (hos o (List.mem_cons_self _ _)) _ _ _ _ _ ho]
    simp only
    have hset : t.fieldOffsets.set pre.length o = (pre ++ [o]) ++ List.replicate os.length 0 := by
      rw [hF, List.length_cons, List.replicate_succ]
      simp
    have := ih (pre ++ [o])
      ⟨wireOffsets order os ++ rest, a, b, c, h, i, cs, n,
        { t with fieldOffsets := t.fieldOffsets.set pre.length o }, p⟩
      rest ho rfl hset (fun g hg => hos g (List.mem_cons_of_mem _ hg))
    simp only [List.length_append, List.length_singleton] at this
    rw [this]
    simp

theorem readTimeSection_wire (dec : Decoder) (order : ByteOrder) (nextOffset epoch ticksPerDay : Int)
    (offsets : List Int) (rest : List Byte) (ho : dec.header.ByteOrder = some order)
    (hr : dec.reader = order.putInt 4 nextOffset ++ (order.putInt 8 epoch ++
      (order.putInt 8 ticksPerDay ++ (order.putInt 4 offsets.length ++ wireOffsets order offsets)))
      ++ rest)
    (hn : isInt32 nextOffset) (he : isInt64 epoch) (ht : isInt64 ticksPerDay)
    (hc : isInt32 offsets.length) (hos : ∀ o ∈ offsets, isInt32 o) :
    readTimeSection dec =
      ({ dec with
          reader := rest,
          timeSection := { nextOffset := nextOffset, epoch := epoch, ticksPerDay := ticksPerDay,
                           fieldsCount := offsets.length, fieldOffsets := offsets } }, none) := by
  obtain ⟨r, a, b, c, h, i, cs, n, t, p⟩ := dec
  simp only at ho hr
  subst hr
  simp only [readTimeSection, List.append_assoc]
  rw [binaryReadInt4_mk order _ hn _ _ _ _ _ ho]
  simp only
  rw [binaryReadInt8_putInt order _ he _ _ _ _ _ ho]
  simp only
  rw [binaryReadInt8_putInt order _ ht _ _ _ _ _ ho]
  simp only
  rw [binaryReadInt4_mk order _ hc _ _ _ _ _ ho]
  simp only [makeLen_length, List.length_replicate]
  have := readTimeOffsetsLoop_wire order offsets []
    ⟨wireOffsets order offsets ++ rest, a, b, c, h, i, cs, n,
      { nextOffset := nextOffset, epoch := epoch, ticksPerDay := ticksPerDay,
        fieldsCount := offsets.length, fieldOffsets := List.replicate offsets.length 0 }, p⟩
    rest ho rfl (by simp) hos
  simp only [List.length_nil, List.nil_append] at this
  rw [this]

theorem readNameValueSection_empty (dec : Decoder) (order : ByteOrder) (nextOffset : Int)
    (rest : List Byte) (ho : dec.header.ByteOrder = some order)
    (hr : dec.reader = order.putInt 4 nextOffset ++ order.putInt 4 0 ++ rest)
    (hn : isInt32 nextOffset) (hnv : dec.nameValueSection.nameValues = []) :
    readNameValueSection dec =
      ({ dec with
          reader := rest,
          nameValueSection := { dec.nameValueSection with nextOffset := nextOffset },
          header := { dec.header with NameValues := [] } }, none) := by
  obtain ⟨r, a, b, c, h, i, cs, n, t, p⟩ := dec
  simp only at ho hr hnv
  subst hr
  simp only [readNameValueSection, List.append_assoc]
  rw [binaryReadInt4_mk order _ hn _ _ _ _ _ ho]
  simp only
  have := readNameValues_count_only
    ⟨order.putInt 4 0 ++ rest, a, b, c, h, i, cs, { n with nextOffset := nextOffset }, t, p⟩
    order 0 rest ho rfl (by decide) hnv
  simp only [Nat.cast_zero, List.replicate_zero] at this
  rw [this]

theorem readSection_item : readSection SectionIDItem = readItemSection := by
  funext d
  simp only [readSection, if_true]

theorem readSection_content : readSection SectionIDContent = readContentSection := by
  funext d
  have h1 : SectionIDContent ≠ SectionIDItem := by decide
  simp only [readSection, h1, if_false, if_true]

theorem readSection_nameValue : readSection SectionIDNameValue = readNameValueSection := by
  funext d
  have h1 : SectionIDNameValue ≠ SectionIDItem := by decide
  have h2 : SectionIDNameValue ≠ SectionIDContent := by decide
  simp only [readSection, h1, h2, if_false, if_true]

theorem readSection_time : readSection SectionIDTime = readTimeSection := by
  funext d
  have h1 : SectionIDTime ≠ SectionIDItem := by decide
  have h2 : SectionIDTime ≠ SectionIDContent := by decide
  have h3 : SectionIDTime ≠ SectionIDNameValue := by decide
  simp only [readSection, h1, h2, h3, if_false, if_true]

theorem readSection_wire (s : Section) (dec : Decoder) (order : ByteOrder) (rest : List Byte)
    (ho : dec.header.ByteOrder = some order) (hr : dec.reader = s.body order ++ rest)
    (hs : s.onWire) (hnv : dec.nameValueSection.nameValues = []) :
    readSection s.id dec = ({ s.record dec with reader := rest }, none) := by
  cases s with
  | item itemSize name fields =>
    obtain ⟨h1, h2, h3, h4, h5⟩ := hs
    simp only [Section.id, readSection_item]
    rw [readItemSection_wire dec order _ itemSize name fields rest ho hr h1 h2 h3 h4 h5]
    rfl
  | content description =>
    obtain ⟨h1, h2⟩ := hs
    simp only [Section.id, readSection_content]
    rw [readContentSection_wire dec order _ description rest ho hr h1 h2]
    rfl
  | nameValue =>
    simp only [Section.id, readSection_nameValue]
    rw [readNameValueSection_empty dec order _ rest ho hr (by decide) hnv]
    rfl
  | time epoch ticksPerDay offsets =>
    obtain ⟨h1, h2, h3, h4, h5⟩ := hs
    simp only [Section.id, readSection_time]
    rw [readTimeSection_wire dec order _ epoch ticksPerDay offsets rest ho hr h1 h2 h3 h4 h5]
    rfl

theorem record_ByteOrder (s : Section) (d : Decoder) :
    (s.record d).header.ByteOrder = d.header.ByteOrder := by
  cases s <;> rfl

theorem record_nameValues (s : Section) (d : Decoder) :
    (s.record d).nameValueSection.nameValues = d.nameValueSection.nameValues := by
  cases s <;> rfl

theorem record_itemStart (s : Section) (d : Decoder) : (s.record d).itemStart = d.itemStart := by
  cases s <;> rfl

theorem record_reader (s : Section) (d : Decoder) (r : List Byte) :
    s.record { d with reader := r } = { s.record d with reader := r } := by
  cases s <;> rfl

theorem recordSections_reader (ss : List Section) :
    ∀ (d : Decoder) (r : List Byte),
      recordSections ss { d with reader := r } = { recordSections ss d with reader := r } := by
  induction ss with
  | nil => intro d r; rfl
  | cons s ss ih =>
    intro d r
    simp only [recordSections]
    rw [record_reader, ih]

theorem Section_id_isInt32 (s : Section) : isInt32 s.id := by
  cases s <;> simp only [Section.id] <;> decide

theorem readSectionsLoop_wire (order : ByteOrder) (ss : List Section) :
    ∀ (dec : Decoder) (rest : List Byte),
      dec.header.ByteOrder = some order →
      dec.reader = wireSections order ss ++ rest →
      dec.nameValueSection.nameValues = [] →
      (∀ s ∈ ss, s.onWire) →
      readSectionsLoop ss.length dec = ({ recordSections ss dec with reader := rest }, none) := by
  induction ss with
  | nil =>
    intro dec rest _ hr _ _
    simp only [wireSections, List.nil_append] at hr
    simp [readSectionsLoop, recordSections, ← hr]
  | cons s ss ih =>
    intro dec rest ho hr hnv hss
    simp only [List.length_cons, readSectionsLoop]
    rw [binaryReadInt4_putInt dec order s.id (s.body order ++ (wireSections order ss ++ rest)) ho
      (by rw [hr]; simp only [wireSections, Section.wire, List.append_assoc])
      (Section_id_isInt32 s)]
    simp only
    rw [readSection_wire s
      { dec with reader := s.body order ++ (wireSections order ss ++ rest) }
      order (wireSections order ss ++ rest) ho rfl (hss s (List.mem_cons_self _ _)) hnv]
    simp only
    rw [ih _ rest (by rw [← ho]; exact record_ByteOrder s _) rfl
      (by rw [← hnv]; exact record_nameValues s _)
      (fun x hx => hss x (List.mem_cons_of_mem _ hx))]
    have e1 := record_reader s dec (s.body order ++ (wireSections order ss ++ rest))
    have e2 := recordSections_reader ss (s.record dec) (wireSections order ss ++ rest)
    have e3 := recordSections_reader ss
      (s.record { dec with reader := s.body order ++ (wireSections order ss ++ rest) })
      (wireSections order ss ++ rest)
    simp only [recordSections]
    rw [e3, e1, recordSections_reader]

theorem wrap64_id (v : Int) (hv : isInt64 v) : wrap64 v = v := by
  unfold isInt64 at hv
  simp only [wrap64, toSigned, ofSigned]
  norm_num
  have h1 : ((v % 18446744073709551616).toNat : Int) = v % 18446744073709551616 :=
    Int.toNat_of_nonneg (by omega)
  split_ifs with h <;> omega

theorem Section_nextOffset_pos (s : Section) : 0 < s.nextOffset := by
  cases s <;> simp only [Section.nextOffset] <;> omega

theorem recordedOffset_record_self (s : Section) (d : Decoder) :
    recordedOffset s.kind (s.record d) = s.nextOffset := by
  cases s <;> rfl

theorem recordedOffset_record_other (s : Section) (k : SectionKind) (d : Decoder)
    (h : k ≠ s.kind) : recordedOffset k (s.record d) = recordedOffset k d := by
  cases s <;> cases k <;> first | rfl | exact absurd rfl h

theorem recordedOffset_recordSections_other (ss : List Section) (k : SectionKind) :
    ∀ d, k ∉ ss.map Section.kind →
      recordedOffset k (recordSections ss d) = recordedOffset k d := by
  induction ss with
  | nil => intro d _; rfl
  | cons s ss ih =>
    intro d hk
    simp only [List.map_cons, List.mem_cons, not_or] at hk
    simp only [recordSections]
    rw [ih _ hk.2, recordedOffset_record_other s k d hk.1]

theorem recordedOffset_item_pos (ss : List Section) :
    ∀ d, SectionKind.item ∈ ss.map Section.kind →
      0 < recordedOffset .item (recordSections ss d) := by
  induction ss with
  | nil => intro d h; simp at h
  | cons s ss ih =>
    intro d h
    simp only [recordSections]
    by_cases hin : SectionKind.item ∈ ss.map Section.kind
    · exact ih _ hin
    · simp only [List.map_cons, List.mem_cons] at h
      rcases h with h | h
      · rw [recordedOffset_recordSections_other ss _ _ hin, h, recordedOffset_record_self]
        exact_mod_cast Section_nextOffset_pos s
      · exact absurd h hin

theorem recordedOffset_nonneg (ss : List Section) :
    ∀ d, (∀ k, 0 ≤ recordedOffset k d) → ∀ k, 0 ≤ recordedOffset k (recordSections ss d) := by
  induction ss with
  | nil => intro d h; exact h
  | cons s ss ih =>
    intro d h
    simp only [recordSections]
    apply ih
    intro k
    by_cases hk : k = s.kind
    · rw [hk, recordedOffset_record_self]
      exact Int.natCast_nonneg _
    · rw [recordedOffset_record_other s k d hk]
      exact h k

theorem paddingShare_sum (ss : List Section) :
    ∀ d, (ss.map Section.kind).Nodup → (∀ s ∈ ss, recordedOffset s.kind d = 0) →
      paddingShare .item (recordSections ss d) + paddingShare .content (recordSections ss d)
        + paddingShare .nameValue (recordSections ss d) + paddingShare .time (recordSections ss d)
      = paddingShare .item d + paddingShare .content d + paddingShare .nameValue d
        + paddingShare .time d + sectionsSize ss := by
  induction ss with
  | nil =>
    intro d _ _
    simp [recordSections, sectionsSize]
  | cons s ss ih =>
    intro d hnd hz
    simp only [List.map_cons, List.nodup_cons] at hnd
    obtain ⟨hnot, hnd⟩ := hnd
    simp only [recordSections]
    rw [ih (s.record d) hnd]
    · have hs0 := hz s (List.mem_cons_self _ _)
      have hpos := Section_nextOffset_pos s
      have hself := recordedOffset_record_self s d
      simp only [sectionsSize, Nat.cast_add, Nat.cast_ofNat]
      cases hk : s.kind with
      | item =>
        rw [hk] at hs0 hself
        have h1 := recordedOffset_record_other s .content d (by rw [hk]; decide)
        have h2 := recordedOffset_record_other s .nameValue d (by rw [hk]; decide)
        have h3 := recordedOffset_record_other s .time d (by rw [hk]; decide)
        simp only [paddingShare, h1, h2, h3, hself, hs0]
        split_ifs <;> omega
      | content =>
        rw [hk] at hs0 hself
        have h1 := recordedOffset_record_other s .item d (by rw [hk]; decide)
        have h2 := recordedOffset_record_other s .nameValue d (by rw [hk]; decide)
        have h3 := recordedOffset_record_other s .time d (by rw [hk]; decide)
        simp only [paddingShare, h1, h2, h3, hself, hs0]
        split_ifs <;> omega
      | nameValue =>
        rw [hk] at hs0 hself
        have h1 := recordedOffset_record_other s .item d (by rw [hk]; decide)
        have h2 := recordedOffset_record_other s .content d (by rw [hk]; decide)
        have h3 := recordedOffset_record_other s .time d (by rw [hk]; decide)
        simp only [paddingShare, h1, h2, h3, hself, hs0]
        split_ifs <;> omega
      | time =>
        rw [hk] at hs0 hself
        have h1 := recordedOffset_record_other s .item d (by rw [hk]; decide)
        have h2 := recordedOffset_record_other s .content d (by rw [hk]; decide)
        have h3 := recordedOffset_record_other s .nameValue d (by rw [hk]; decide)
        simp only [paddingShare, h1, h2, h3, hself, hs0]
        split_ifs <;> omega
    · intro t ht
      have hne : t.kind ≠ s.kind := by
        intro heq
        exact hnot (heq ▸ List.mem_map_of_mem _ ht)
      rw [recordedOffset_record_other s t.kind d hne]
      exact hz t (List.mem_cons_of_mem _ ht)

theorem padding_step (x y : Int) (hx : isInt64 x)
    (h : 0 ≤ x - (if y > 0 then 8 + y else 0)) :
    (if y > 0 then wrap64 (x - (8 + y)) else x) = x - (if y > 0 then 8 + y else 0) := by
  unfold isInt64 at hx
  split_ifs with c
  · rw [if_pos c] at h
    exact wrap64_id _ (by unfold isInt64; constructor <;> omega)
  · simp

theorem share_nonneg (y : Int) : 0 ≤ (if y > 0 then 8 + y else 0) := by
  split_ifs <;> omega

theorem paddingOffset_eq (d : Decoder) (hs : isInt64 d.itemStart)
    (hnn : ∀ k, 0 ≤ recordedOffset k d) (hi : 0 < recordedOffset .item d)
    (hge : 0 ≤ d.itemStart - 32 - (paddingShare .item d + paddingShare .content d
      + paddingShare .nameValue d + paddingShare .time d)) :
    paddingOffset d = d.itemStart - 32 - (paddingShare .item d + paddingShare .content d
      + paddingShare .nameValue d + paddingShare .time d) := by
  have h1 := hnn .item
  have h2 := hnn .content
  have h3 := hnn .nameValue
  have h4 := hnn .time
  have n2 := share_nonneg d.contentSection.nextOffset
  have n3 := share_nonneg d.nameValueSection.nextOffset
  have n4 := share_nonneg d.timeSection.nextOffset
  unfold isInt64 at hs
  simp only [paddingShare, recordedOffset] at *
  simp only [hi, if_true] at hge ⊢
  unfold paddingOffset
  simp only [gt_iff_lt, hi, if_true] at hge n2 n3 n4 ⊢
  have w1 : wrap64 (d.itemStart - (36 + 4 + d.itemSection.nextOffset))
      = d.itemStart - (36 + 4 + d.itemSection.nextOffset) :=
    wrap64_id _ (by unfold isInt64; constructor <;> omega)
  rw [w1]
  have s2 := padding_step (d.itemStart - (36 + 4 + d.itemSection.nextOffset))
    d.contentSection.nextOffset (by unfold isInt64; constructor <;> omega)
    (by simp only [gt_iff_lt]; omega)
  simp only [gt_iff_lt] at s2
  rw [s2]
  have s3 := padding_step (d.itemStart - (36 + 4 + d.itemSection.nextOffset)
      - (if 0 < d.contentSection.nextOffset then 8 + d.contentSection.nextOffset else 0))
    d.nameValueSection.nextOffset (by unfold isInt64; constructor <;> omega)
    (by simp only [gt_iff_lt]; omega)
  simp only [gt_iff_lt] at s3
  rw [s3]
  have s4 := padding_step (d.itemStart - (36 + 4 + d.itemSection.nextOffset)
      - (if 0 < d.contentSection.nextOffset then 8 + d.contentSection.nextOffset else 0)
      - (if 0 < d.nameValueSection.nextOffset then 8 + d.nameValueSection.nextOffset else 0))
    d.timeSection.nextOffset (by unfold isInt64; constructor <;> omega)
    (by simp only [gt_iff_lt]; omega)
  simp only [gt_iff_lt] at s4
  rw [s4]
  omega

theorem wireFields_length (order : ByteOrder) (fs : List Field) :
    (wireFields order fs).length = fieldsSize fs := by
  induction fs with
  | nil => rfl
  | cons f fs ih =>
    simp only [wireFields, wireField, wireString, fieldsSize, List.length_append, putInt_length, ih]
    omega

theorem wireOffsets_length (order : ByteOrder) (os : List Int) :
    (wireOffsets order os).length = 4 * os.length := by
  induction os with
  | nil => rfl
  | cons o os ih =>
    simp only [wireOffsets, List.length_append, putInt_length, ih, List.length_cons]
    omega

theorem Section_wire_length (order : ByteOrder) (s : Section) :
    (s.wire order).length = 8 + s.nextOffset := by
  cases s <;>
    simp only [Section.wire, Section.body, wireItemSection, wireString, Section.nextOffset,
      List.length_append, putInt_length, wireFields_length, wireOffsets_length] <;>
    omega

theorem wireSections_length (order : ByteOrder) (ss : List Section) :
    (wireSections order ss).length = sectionsSize ss := by
  induction ss with
  | nil => rfl
  | cons s ss ih =>
    simp only [wireSections, sectionsSize, List.length_append, Section_wire_length, ih]

theorem sectionsSize_ge (ss : List Section) : 8 * ss.length ≤ sectionsSize ss := by
  induction ss with
  | nil => simp [sectionsSize]
  | cons s ss ih =>
    simp only [sectionsSize, List.length_cons]
    omega

theorem readEndianness_negotiates (dec : Decoder) (o0 order : ByteOrder) (b rest : List Byte)
    (hb : b.length = 8) (hr : dec.reader = b ++ rest) (ho : dec.header.ByteOrder = some o0)
    (hneg : negotiates o0 b order) :
    readEndianness dec =
      ({ dec with reader := rest, header := { dec.header with ByteOrder := some order } },
        none) := by
  rw [readEndianness_eq dec o0 b rest hb hr ho]
  rcases hneg with ⟨h1, h2⟩ | ⟨h1, h2⟩
  · rw [if_pos h1, h2]
  · have hne : MagicValueBigEndian ≠ MagicValueLittleEndian := by decide
    rw [h1, if_neg hne, if_pos rfl, h2]

theorem binaryReadBytes_take (dec : Decoder) (n : Nat) (h : n ≤ dec.reader.length) :
    binaryReadBytes n dec = ({ dec with reader := dec.reader.drop n }, .ok (dec.reader.take n)) := by
  simp [binaryReadBytes, ioReadFull, h]

theorem recordSections_itemStart (ss : List Section) :
    ∀ d, (recordSections ss d).itemStart = d.itemStart := by
  induction ss with
  | nil => intro d; rfl
  | cons s ss ih =>
    intro d
    simp only [recordSections]
    rw [ih, record_itemStart]

theorem readPadding_ok (d : Decoder) (p : Int) (hp : paddingOffset d = p) (h0 : 0 ≤ p)
    (hl : p.toNat ≤ d.reader.length) :
    readPadding d =
      ({ d with reader := d.reader.drop p.toNat, padding := d.reader.take p.toNat }, none) := by
  have hm : makeLen p = .ok p.toNat := by
    simp only [makeLen]
    rw [if_neg (by omega)]
  simp only [readPadding, hp, hm]
  rw [binaryReadBytes_take { d with padding := List.replicate p.toNat 0 } _ hl]

theorem readSections_common_shape (order : ByteOrder) (secs : List Section) (tail : List Byte)
    (d : Decoder) (ho : d.header.ByteOrder = some order)
    (hr : d.reader = wireSections order secs ++ tail)
    (hnv : d.nameValueSection.nameValues = []) (hc : d.sectionCount = secs.length)
    (hwire : ∀ s ∈ secs, s.onWire) :
    readSections d = ({ recordSections secs d with reader := tail }, none) := by
  simp only [readSections, hc, Int.toNat_ofNat]
  exact readSectionsLoop_wire order secs d tail ho hr hnv hwire

theorem paddingOffset_common_shape (secs : List Section) (tail : List Byte) (d : Decoder)
    (hz : ∀ k, recordedOffset k d = 0)
    (hitem : SectionKind.item ∈ secs.map Section.kind)
    (hnodup : (secs.map Section.kind).Nodup)
    (hstart : isInt64 d.itemStart)
    (hlen : (32 : Int) + sectionsSize secs ≤ d.itemStart) :
    paddingOffset { recordSections secs d with reader := tail }
      = d.itemStart - 32 - sectionsSize secs := by
  have hsum := paddingShare_sum secs d hnodup (fun s _ => hz s.kind)
  have hP0 : ∀ k, paddingShare k d = 0 := by
    intro k
    simp only [paddingShare, hz k]
    rfl
  simp only [hP0, zero_add] at hsum
  have hpad := paddingOffset_eq (recordSections secs d)
    (by rw [recordSections_itemStart]; exact hstart)
    (recordedOffset_nonneg secs d (fun k => by rw [hz k]))
    (recordedOffset_item_pos secs d hitem)
    (by rw [hsum, recordSections_itemStart]; omega)
  rw [hsum, recordSections_itemStart] at hpad
  exact hpad

theorem readHeader_common_shape (order o0 : ByteOrder) (magic : List Byte)
    (itemStart itemEnd : Int) (secs : List Section) (tail : List Byte) (h0 : Header)
    (ho0 : h0.ByteOrder = some o0) (hm : magic.length = 8) (hneg : negotiates o0 magic order)
    (hitem : SectionKind.item ∈ secs.map Section.kind)
    (hnodup : (secs.map Section.kind).Nodup) (hwire : ∀ s ∈ secs, s.onWire)
    (hstart : isInt64 itemStart) (hend : isInt64 itemEnd)
    (hlen : (32 : Int) + sectionsSize secs ≤ itemStart)
    (htail : itemStart ≤ 32 + sectionsSize secs + tail.length) :
    ∃ d, readHeader (newDecoderState (wireHeader order magic itemStart itemEnd secs ++ tail) h0)
        = (d, none) ∧
      d.reader = tail.drop (itemStart - 32 - sectionsSize secs).toNat ∧
      d.padding = tail.take (itemStart - 32 - sectionsSize secs).toNat ∧
      d.itemStart = itemStart := by
  have hcount : isInt64 (secs.length : Int) := by
    have := sectionsSize_ge secs
    unfold isInt64 at hstart ⊢
    constructor <;> omega
  have h1o : ({ h0 with ByteOrder := some order } : Header).ByteOrder = some order := rfl
  have s1 : readEndianness
      (newDecoderState (wireHeader order magic itemStart itemEnd secs ++ tail) h0)
      = (⟨order.putInt 8 itemStart ++ (order.putInt 8 itemEnd ++
            (order.putInt 8 secs.length ++ (wireSections order secs ++ tail))),
          0, 0, 0, { h0 with ByteOrder := some order }, ⟨0, 0⟩, ⟨0⟩, ⟨0, 0, []⟩,
          ⟨0, 0, 0, 0, []⟩, []⟩, none) := by
    rw [readEndianness_negotiates
      (newDecoderState (wireHeader order magic itemStart itemEnd secs ++ tail) h0) o0 order magic
      (order.putInt 8 itemStart ++ (order.putInt 8 itemEnd ++
        (order.putInt 8 secs.length ++ (wireSections order secs ++ tail))))
      hm (by simp only [newDecoderState, wireHeader, List.append_assoc]) ho0 hneg]
    rfl
  obtain ⟨d3, hd3⟩ : ∃ d3 : Decoder, d3 =
      ⟨wireSections order secs ++ tail, itemStart, itemEnd, secs.length,
        { h0 with ByteOrder := some order }, ⟨0, 0⟩, ⟨0⟩, ⟨0, 0, []⟩, ⟨0, 0, 0, 0, []⟩, []⟩ :=
    ⟨_, rfl⟩
  have hz : ∀ k, recordedOffset k d3 = 0 := by
    intro k
    rw [hd3]
    cases k <;> rfl
  have s4 := readSections_common_shape order secs tail d3 (by rw [hd3]) (by rw [hd3])
    (by rw [hd3]) (by rw [hd3]) hwire
  have hpo := paddingOffset_common_shape secs tail d3 hz hitem hnodup
    (by rw [hd3]; exact hstart) (by rw [hd3]; exact hlen)
  have hi3 : d3.itemStart = itemStart := by rw [hd3]
  rw [hi3] at hpo
  have s5 := readPadding_ok { recordSections secs d3 with reader := tail } _ hpo (by omega)
    (by simp only; omega)
  refine ⟨{ recordSections secs d3 with
      reader := tail.drop (itemStart - 32 - sectionsSize secs).toNat,
      padding := tail.take (itemStart - 32 - sectionsSize secs).toNat }, ?_, ?_, ?_, ?_⟩
  · simp only [readHeader]
    rw [s1]
    simp only [readItemsStartEnd, readSectionCount]
    rw [binaryReadInt8_putInt order _ hstart _ _ _ _ _ h1o]
    simp only
    rw [binaryReadInt8_putInt order _ hend _ _ _ _ _ h1o]
    simp only
    rw [binaryReadInt8_putInt order _ hcount _ _ _ _ _ h1o]
    simp only
    rw [← hd3, s4]
    simp only
    rw [s5]
  · rfl
  · rfl
  · simp only [recordSections_itemStart, hi3]

theorem wireHeader_length (order : ByteOrder) (magic : List Byte) (itemStart itemEnd : Int)
    (secs : List Section) (hm : magic.length = 8) :
    (wireHeader order magic itemStart itemEnd secs).length = 32 + sectionsSize secs := by
  simp only [wireHeader, List.length_append, putInt_length, wireSections_length, hm]
  omega

theorem NewDecoder_common_shape (order o0 : ByteOrder) (magic : List Byte)
    (itemStart itemEnd : Int) (secs : List Section) (tail : List Byte)
    (header : Option Header) (g : Header)
    (ho0 : (defaultByteOrder (targetHeader header g)).ByteOrder = some o0)
    (hm : magic.length = 8) (hneg : negotiates o0 magic order)
    (hitem : SectionKind.item ∈ secs.map Section.kind)
    (hnodup : (secs.map Section.kind).Nodup) (hwire : ∀ s ∈ secs, s.onWire)
    (hstart : isInt64 itemStart) (hend : isInt64 itemEnd)
    (hlen : (32 : Int) + sectionsSize secs ≤ itemStart)
    (htail : itemStart ≤ 32 + sectionsSize secs + tail.length) :
    (NewDecoder (wireHeader order magic itemStart itemEnd secs ++ tail) header g).err = none ∧
    (∃ d, (NewDecoder (wireHeader order magic itemStart itemEnd secs ++ tail) header g).decoder
        = some d ∧
      (d.padding.length : Int) = itemStart - 32 - sectionsSize secs) ∧
    (((wireHeader order magic itemStart itemEnd secs ++ tail).length -
      (NewDecoder (wireHeader order magic itemStart itemEnd secs ++ tail) header g).reader.length
        : Nat) : Int) = itemStart := by
  obtain ⟨d, hd, hr, hp, _⟩ := readHeader_common_shape order o0 magic itemStart itemEnd secs tail
    (defaultByteOrder (targetHeader header g)) ho0 hm hneg hitem hnodup hwire hstart hend hlen htail
  have hn : (itemStart - 32 - sectionsSize secs).toNat ≤ tail.length := by omega
  have hN : NewDecoder (wireHeader order magic itemStart itemEnd secs ++ tail) header g
      = { decoder := some d, err := none, header := header.map (fun _ => d.header),
          DefaultHeader := if header = none then d.header else g, reader := d.reader } := by
    simp only [NewDecoder, hd]
  rw [hN]
  refine ⟨rfl, ⟨d, rfl, ?_⟩, ?_⟩
  · rw [hp, List.length_take, Nat.min_eq_left hn]
    omega
  · simp only
    rw [hr, List.length_drop, List.length_append, wireHeader_length _ _ _ _ _ hm]
    omega

/-! ## The claims -/

/-- C1 (fails on the code): `NewEncoder` ignores its header and hands the
writer the 8 magic bytes only, so for every header `h` the decoder run over the
flushed output stops after the magic value with the error
`reading item start: EOF` and returns no decoder, whatever header it fills. -/
theorem header_round_trip_fails (h : Option Header) (target : Option Header) (g : Header) :
    (NewEncoder [] h).1.w.Flush.out = [0, 5, 8, 2, 4, 10, 14, 13] ∧
    (NewDecoder (NewEncoder [] h).1.w.Flush.out target g).decoder = none ∧
    (NewDecoder (NewEncoder [] h).1.w.Flush.out target g).err
      = some (.error "reading item start: EOF") := by
  refine ⟨NewEncoder_out h, ?_⟩
  rw [NewEncoder_out]
  obtain ⟨o, ho⟩ := defaultByteOrder_some (targetHeader target g)
  exact NewDecoder_of_error _ _ _ _ (readHeader_magic_only _ o ho)

/-- C2 (fails on the code): `Encoder.Encode` of the record
`{Timestamp: 2021-01-01T00:00:00Z, Volume: 10}` succeeds and delivers 43
bytes, but `Decoder.Decode`, called on a decoder over those bytes with a
pointer to a zero record, returns nil and leaves the target the zero record,
which differs from the encoded record. -/
theorem item_round_trip_fails (dec : Decoder) :
    ((NewEncoder [] none).1.Encode record2021).2 = none ∧
    ((NewEncoder [] none).1.Encode record2021).1.w.out.length = 43 ∧
    Decoder.Decode { dec with reader := ((NewEncoder [] none).1.Encode record2021).1.w.out }
        (Item.ptr recordZero)
      = ({ dec with reader := ((NewEncoder [] none).1.Encode record2021).1.w.out },
          Item.ptr recordZero, none) ∧
    Item.ptr recordZero ≠ Item.ptr record2021 ∧ recordZero ≠ record2021 := by
  refine ⟨by decide, by decide, rfl, by decide, by decide⟩

/-- C3, counterexample: on a stream whose first 8 bytes are no magic value,
`NewDecoder` called with a header whose `ByteOrder` is unset returns no decoder
and the error `not a teafile`, and the caller's header is not left unchanged:
its `ByteOrder`, nil before the call, is little-endian afterwards. -/
theorem magic_failure_sets_unset_ByteOrder :
    zeroHeader.ByteOrder = none ∧
    (NewDecoder ([1, 2, 3, 4, 5, 6, 7, 8] ++ [9]) (some zeroHeader) DefaultHeader).decoder = none ∧
    (NewDecoder ([1, 2, 3, 4, 5, 6, 7, 8] ++ [9]) (some zeroHeader) DefaultHeader).err
      = some (.error "not a teafile") ∧
    (NewDecoder ([1, 2, 3, 4, 5, 6, 7, 8] ++ [9]) (some zeroHeader) DefaultHeader).header
      = some { zeroHeader with ByteOrder := some .LittleEndian } ∧
    (NewDecoder ([1, 2, 3, 4, 5, 6, 7, 8] ++ [9]) (some zeroHeader) DefaultHeader).header
      ≠ some zeroHeader := by
  decide

/-- C3, as amended: with `Header.ByteOrder` little-endian (the value
`NewDecoder` stores in an unset one before it reads), when the stream starts
with 8 bytes `b`: if `b` read as a little-endian `int64` is
`MagicValueLittleEndian`, `readEndianness` returns nil and sets `ByteOrder` to
little-endian; if it is `MagicValueBigEndian`, it returns nil and sets
`ByteOrder` to big-endian; for every other value it returns the error
`not a teafile` and leaves the header as it was, and `NewDecoder`, on a header
whose `ByteOrder` is unset or little-endian, returns no decoder and that error,
the header's `ByteOrder` being little-endian afterwards (unchanged when it was
little-endian, the stored default when it was unset) and its other fields
unchanged. -/
theorem magic_negotiation (dec : Decoder) (b rest : List Byte)
    (hb : b.length = 8) (hr : dec.reader = b ++ rest)
    (ho : dec.header.ByteOrder = some .LittleEndian) :
    (toSigned 64 (getLE b) = MagicValueLittleEndian →
      readEndianness dec =
        ({ dec with reader := rest,
                    header := { dec.header with ByteOrder := some .LittleEndian } }, none)) ∧
    (toSigned 64 (getLE b) = MagicValueBigEndian →
      readEndianness dec =
        ({ dec with reader := rest,
                    header := { dec.header with ByteOrder := some .BigEndian } }, none)) ∧
    (toSigned 64 (getLE b) ≠ MagicValueLittleEndian →
      toSigned 64 (getLE b) ≠ MagicValueBigEndian →
      readEndianness dec = ({ dec with reader := rest }, some (.error "not a teafile")) ∧
      ∀ (header : Option Header) (g : Header),
        (targetHeader header g).ByteOrder = none ∨
          (targetHeader header g).ByteOrder = some .LittleEndian →
        (NewDecoder (b ++ rest) header g).decoder = none ∧
        (NewDecoder (b ++ rest) header g).err = some (.error "not a teafile") ∧
        (NewDecoder (b ++ rest) header g).header
          = header.map (fun h => { h with ByteOrder := some .LittleEndian }) ∧
        (NewDecoder (b ++ rest) header g).DefaultHeader
          = if header = none then { g with ByteOrder := some .LittleEndian } else g) := by
  refine ⟨?_, ?_, ?_⟩
  · intro h1
    obtain ⟨r, a, b1, c, h, i, cs, n, t, p⟩ := dec
    simp only at ho hr
    subst hr
    simp only [readEndianness]
    rw [binaryReadInt8_mk .LittleEndian b hb _ _ _ _ _ ho]
    simp [ByteOrder.get, h1]
  · intro h1
    obtain ⟨r, a, b1, c, h, i, cs, n, t, p⟩ := dec
    simp only at ho hr
    subst hr
    simp only [readEndianness]
    rw [binaryReadInt8_mk .LittleEndian b hb _ _ _ _ _ ho]
    have hne : MagicValueBigEndian ≠ MagicValueLittleEndian := by decide
    simp [ByteOrder.get, h1, hne]
  · intro h1 h2
    refine ⟨readEndianness_other dec b rest hb hr ho h1 h2, ?_⟩
    intro header g hbo
    have key : ∀ h : Header, h.ByteOrder = some .LittleEndian →
        readHeader (newDecoderState (b ++ rest) h)
          = ({ newDecoderState (b ++ rest) h with reader := rest }, some (.error "not a teafile")) := by
      intro h hh
      simp only [readHeader]
      rw [readEndianness_other (newDecoderState (b ++ rest) h) b rest hb rfl hh h1 h2]
    have hd : defaultByteOrder (targetHeader header g)
        = { targetHeader header g with ByteOrder := some .LittleEndian } := by
      rcases hbo with hbo | hbo
      · simp [defaultByteOrder, hbo]
      · simp only [defaultByteOrder, hbo]
        cases hh : targetHeader header g
        simp_all
    simp only [NewDecoder, hd]
    rw [key _ rfl]
    cases header <;> simp [newDecoderState, targetHeader]

/-- Witness of C3 as amended, on the streams `00 05 08 02 04 0a 0e 0d 09`,
`0d 0e 0a 04 02 08 05 00 09` and `01 02 03 04 05 06 07 08 09`. -/
theorem magic_negotiation_witness :
    readEndianness (newDecoderState ([0, 5, 8, 2, 4, 10, 14, 13] ++ [9]) DefaultHeader)
      = ({ newDecoderState ([0, 5, 8, 2, 4, 10, 14, 13] ++ [9]) DefaultHeader with
            reader := [9],
            header := { DefaultHeader with ByteOrder := some .LittleEndian } }, none) ∧
    readEndianness (newDecoderState ([13, 14, 10, 4, 2, 8, 5, 0] ++ [9]) DefaultHeader)
      = ({ newDecoderState ([13, 14, 10, 4, 2, 8, 5, 0] ++ [9]) DefaultHeader with
            reader := [9],
            header := { DefaultHeader with ByteOrder := some .BigEndian } }, none) ∧
    readEndianness (newDecoderState ([1, 2, 3, 4, 5, 6, 7, 8] ++ [9]) DefaultHeader)
      = ({ newDecoderState ([1, 2, 3, 4, 5, 6, 7, 8] ++ [9]) DefaultHeader with reader := [9] },
          some (.error "not a teafile")) ∧
    (NewDecoder ([1, 2, 3, 4, 5, 6, 7, 8] ++ [9]) (some zeroHeader) DefaultHeader).decoder = none ∧
    (NewDecoder ([1, 2, 3, 4, 5, 6, 7, 8] ++ [9]) (some zeroHeader) DefaultHeader).err
      = some (.error "not a teafile") :=
  ⟨(magic_negotiation (newDecoderState ([0, 5, 8, 2, 4, 10, 14, 13] ++ [9]) DefaultHeader)
      [0, 5, 8, 2, 4, 10, 14, 13] [9] rfl rfl rfl).1 (by decide),
    (magic_negotiation (newDecoderState ([13, 14, 10, 4, 2, 8, 5, 0] ++ [9]) DefaultHeader)
      [13, 14, 10, 4, 2, 8, 5, 0] [9] rfl rfl rfl).2.1 (by decide),
    ((magic_negotiation (newDecoderState ([1, 2, 3, 4, 5, 6, 7, 8] ++ [9]) DefaultHeader)
      [1, 2, 3, 4, 5, 6, 7, 8] [9] rfl rfl rfl).2.2 (by decide) (by decide)).1,
    (((magic_negotiation (newDecoderState ([1, 2, 3, 4, 5, 6, 7, 8] ++ [9]) DefaultHeader)
      [1, 2, 3, 4, 5, 6, 7, 8] [9] rfl rfl rfl).2.2 (by decide) (by decide)).2
        (some zeroHeader) DefaultHeader (Or.inl rfl)).1,
    (((magic_negotiation (newDecoderState ([1, 2, 3, 4, 5, 6, 7, 8] ++ [9]) DefaultHeader)
      [1, 2, 3, 4, 5, 6, 7, 8] [9] rfl rfl rfl).2.2 (by decide) (by decide)).2
        (some zeroHeader) DefaultHeader (Or.inl rfl)).2.1⟩

/-- C4 (fails on the code): on a stream with `ItemStart = 32`, no section and
32 bytes of item data, `NewDecoder` succeeds, reads a padding of 32 bytes and
has consumed 64 bytes, twice `ItemStart`. -/
theorem padding_overruns_ItemStart_without_item_section :
    streamNoSections.take 32
      = [0, 5, 8, 2, 4, 10, 14, 13, 32, 0, 0, 0, 0, 0, 0, 0, 64, 0, 0, 0, 0, 0, 0, 0,
         0, 0, 0, 0, 0, 0, 0, 0] ∧
    streamNoSections.length = 64 ∧
    (NewDecoder streamNoSections none DefaultHeader).err = none ∧
    (NewDecoder streamNoSections none DefaultHeader).decoder.map (fun d => d.itemStart) = some 32 ∧
    (NewDecoder streamNoSections none DefaultHeader).decoder.map (fun d => d.padding.length)
      = some 32 ∧
    streamNoSections.length - (NewDecoder streamNoSections none DefaultHeader).reader.length = 64 := by
  decide

/-- C5 (fails on the code): on a header of 52 bytes that declares
`ItemStart = 40` the padding length computed by `readPadding` is -12 and
`NewDecoder` panics in `make` instead of returning an error. -/
theorem negative_padding_panics :
    streamItemStartTooSmall
      = [0, 5, 8, 2, 4, 10, 14, 13, 40, 0, 0, 0, 0, 0, 0, 0, 40, 0, 0, 0, 0, 0, 0, 0,
         1, 0, 0, 0, 0, 0, 0, 0, 10, 0, 0, 0, 12, 0, 0, 0, 0, 0, 0, 0, 0, 0, 0, 0,
         0, 0, 0, 0] ∧
    (readSections (readSectionCount (readItemsStartEnd (readEndianness
      (newDecoderState streamItemStartTooSmall DefaultHeader)).1).1).1).2 = none ∧
    paddingOffset (readSections (readSectionCount (readItemsStartEnd (readEndianness
      (newDecoderState streamItemStartTooSmall DefaultHeader)).1).1).1).1 = -12 ∧
    (NewDecoder streamItemStartTooSmall none DefaultHeader).err
      = some (.panic "runtime error: makeslice: len out of range") := by
  decide

/-- C6: when the decoder's byte order is `order` and the stream holds an Item
section body (`NextOffset`, `ItemSize`, `Name` as `int32` length and bytes,
`FieldCount`, then per field `Type`, `Offset` and `Name`) of `int32` values in
that order, followed by `rest`, `readItemSection` returns nil, leaves exactly
`rest` in the stream, records `NextOffset` and `ItemSize`, sets `Header.Name`
to the item name and `Header.Fields` to the encoded fields, in order. -/
theorem item_section_decoding (dec : Decoder) (order : ByteOrder) (nextOffset itemSize : Int)
    (name : List Byte) (fields : List Field) (rest : List Byte)
    (ho : dec.header.ByteOrder = some order)
    (hr : dec.reader = wireItemSection order nextOffset itemSize name fields ++ rest)
    (hn : isInt32 nextOffset) (hs : isInt32 itemSize) (hname : isInt32 name.length)
    (hcount : isInt32 fields.length) (hf : ∀ f ∈ fields, f.onWire) :
    readItemSection dec =
      ({ dec with
          reader := rest,
          itemSection := { nextOffset := nextOffset, itemSize := itemSize },
          header := { dec.header with Name := name, Fields := fields } }, none) :=
  readItemSection_wire dec order nextOffset itemSize name fields rest ho hr hn hs hname hcount hf

/-- Witness of C6: a big-endian Item section for item `"T"` of size 9 with the
fields `ts` and `volume`, followed by the bytes `01 02 03`. -/
theorem item_section_decoding_witness :
    (∀ f ∈ sampleFields, f.onWire) ∧
    readItemSection (newDecoderState
        (wireItemSection .BigEndian 45 9 (bytesOf "T") sampleFields ++ [1, 2, 3])
        { DefaultHeader with ByteOrder := some .BigEndian })
      = ({ newDecoderState
            (wireItemSection .BigEndian 45 9 (bytesOf "T") sampleFields ++ [1, 2, 3])
            { DefaultHeader with ByteOrder := some .BigEndian } with
          reader := [1, 2, 3],
          itemSection := { nextOffset := 45, itemSize := 9 },
          header := { DefaultHeader with
            ByteOrder := some .BigEndian, Name := bytesOf "T", Fields := sampleFields } }, none) :=
  ⟨by decide,
    item_section_decoding _ .BigEndian 45 9 (bytesOf "T") sampleFields [1, 2, 3] rfl rfl
      (by decide) (by decide) (by decide) (by decide) (by decide)⟩

/-- C7 (fails on the code): on a NameValue section with `Count = 1` and the
entry `{Name: "a", Kind: 1, Value: 7}`, `readNameValueSection` returns nil
having consumed 8 bytes (`NextOffset` and `Count`); the 13 bytes of the entry
stay in the stream and `Header.NameValues` is one zero entry. -/
theorem name_value_entries_not_read :
    wireNameValueSectionA = [17, 0, 0, 0, 1, 0, 0, 0, 1, 0, 0, 0, 97, 1, 0, 0, 0, 7, 0, 0, 0] ∧
    readNameValueSection (newDecoderState wireNameValueSectionA DefaultHeader)
      = ({ newDecoderState wireNameValueSectionA DefaultHeader with
            reader := wireEntryA,
            nameValueSection := { nextOffset := 17, nameValuesCount := 0, nameValues := [] },
            header := { DefaultHeader with
              NameValues := [{ Kind := 0, Name := [], Value := .nil }] } }, none) ∧
    wireEntryA.length = 13 ∧
    ({ Kind := 0, Name := [], Value := .nil } : NameValue)
      ≠ { Kind := 1, Name := bytesOf "a", Value := .int32 7 } := by
  decide

/-- C8 (fails on the code): `NewDecoder` succeeds on a header with a Time
section (`Epoch = 719162`, `TicksPerDay = 86400000`, offsets `[0]`) and stores
these in the decoder's private `timeSection`; the `Times` of the caller's
header, a zero header, stay zero. -/
theorem time_section_not_in_header :
    streamItemAndTime.length = 99 ∧
    (NewDecoder streamItemAndTime (some zeroHeader) DefaultHeader).err = none ∧
    (NewDecoder streamItemAndTime (some zeroHeader) DefaultHeader).decoder.map (fun d => d.timeSection)
      = some { nextOffset := 24, epoch := 719162, ticksPerDay := 86400000, fieldsCount := 1,
               fieldOffsets := [0] } ∧
    (NewDecoder streamItemAndTime (some zeroHeader) DefaultHeader).header.map (fun h => h.Times)
      = some { Epoch := 0, TicksPerDay := 0, Offsets := [] } ∧
    (NewDecoder streamItemAndTime (some zeroHeader) DefaultHeader).reader = [] := by
  decide

/-- C9 (fails on the code): the FieldType constants are declared with
`iota + 1` in a const block whose first eight ConstSpecs precede them, so they
are 9..18, not 1..10; the field of wire type 4 (Int64) decoded from a stream
does not compare equal to `FieldTypeInt64`. -/
theorem FieldType_constants_are_9_to_18 :
    [FieldTypeInt8, FieldTypeInt16, FieldTypeInt32, FieldTypeInt64, FieldTypeUint8,
      FieldTypeUint16, FieldTypeUint32, FieldTypeUint64, FieldTypeFloat, FieldTypeDouble]
      = [9, 10, 11, 12, 13, 14, 15, 16, 17, 18] ∧
    (NewDecoder streamItemAndTime (some zeroHeader) DefaultHeader).header.map (fun h => h.Fields)
      = some [{ Name := bytesOf "ts", Typ := 4, Offset := 0 }] ∧
    (4 : Int) ≠ FieldTypeInt64 := by
  decide

/-- C10 (fails on the code): the 8 bytes `NewEncoder` delivers are a valid
magic value, but a decoder with the default header negotiates little-endian
from them while the encoder writes everything in big-endian. -/
theorem encoder_magic_negotiates_other_order :
    (NewEncoder [] none).1.w.Flush.out = [0, 5, 8, 2, 4, 10, 14, 13] ∧
    (readEndianness (newDecoderState (NewEncoder [] none).1.w.Flush.out DefaultHeader)).2 = none ∧
    (readEndianness (newDecoderState (NewEncoder [] none).1.w.Flush.out DefaultHeader)).1.header.ByteOrder
      = some .LittleEndian ∧
    (NewEncoder [] none).1.byteOrder = .BigEndian ∧
    (readEndianness (newDecoderState (NewEncoder [] none).1.w.Flush.out DefaultHeader)).1.header.ByteOrder
      ≠ some (NewEncoder [] none).1.byteOrder := by
  decide

/-- C11 (fails on the code): `Encoder.Encode` writes a `time.Time` field as
`UnixNano()`, nanoseconds since 1970-01-01T00:00:00Z, whatever `Times` holds:
for 2021-01-01T00:00:00Z the 8 bytes written hold 1609459200000000000, not
the 1609459200000 milliseconds of the claim; for 1970-01-01T00:00:00Z they
hold 0. -/
theorem timestamp_written_in_nanoseconds :
    ((NewEncoder [] none).1.Encode record2021).2 = none ∧
    UnixNano 1609459200 0 = 1609459200000000000 ∧
    ((NewEncoder [] none).1.Encode record2021).1.w.out
      = [0, 5, 8, 2, 4, 10, 14, 13] ++ bytesOf "teafile_test.myEncoderType"
        ++ ByteOrder.BigEndian.putInt 8 (UnixNano 1609459200 0) ++ [10] ∧
    ByteOrder.BigEndian.putInt 8 (UnixNano 1609459200 0)
      ≠ ByteOrder.BigEndian.putInt 8 1609459200000 ∧
    ((NewEncoder [] none).1.Encode recordEpoch).1.w.out
      = [0, 5, 8, 2, 4, 10, 14, 13] ++ bytesOf "teafile_test.myEncoderType"
        ++ ByteOrder.BigEndian.putInt 8 0 ++ [10] := by
  decide

/-- C12 (fails on the code): for a record with a timestamp-tagged field, a
`string` field and an `int8` field, `Encoder.Encode` returns no error value:
the type switch leaves `value` nil for the string and `binary.Write` panics
on it, after the 8 bytes of the timestamp went into the encoder's buffer. -/
theorem unsupported_field_panics :
    ((NewEncoder [] none).1.Encode recordWithString).2
      = some (.panic "reflect: call of reflect.Value.Type on zero Value") ∧
    ((NewEncoder [] none).1.Encode recordWithString).1.w.out = [] ∧
    ((NewEncoder [] none).1.Encode recordWithString).1.w.buf
      = [0, 5, 8, 2, 4, 10, 14, 13] ++ bytesOf "main.named"
        ++ ByteOrder.BigEndian.putInt 8 1609459200000000000 := by
  decide

/-- C13 (fails on the code): the records `struct { volume int8 }` and
`struct { Name string }` have one field and no timestamp tag, and
`Encoder.Encode` returns no error for them: it panics before it reaches its
check of `foundTSTag`, for the first in `fval.Interface()`, the field being
unexported, for the second in `binary.Write`, which is handed a nil `value`. -/
theorem missing_timestamp_panics :
    recordUnexported = .struct (bytesOf "main.hidden")
      [{ Name := bytesOf "volume", PkgPath := bytesOf "main", Tag := [], Value := .int8 77 }] ∧
    ((NewEncoder [] none).1.Encode recordUnexported).2
      = some (.panic
          "reflect.Value.Interface: cannot return value obtained from unexported field or method") ∧
    (¬ ∃ msg, ((NewEncoder [] none).1.Encode recordUnexported).2 = some (.error msg)) ∧
    recordOnlyString = .struct (bytesOf "main.text")
      [{ Name := bytesOf "Name", PkgPath := [], Tag := [], Value := .other (bytesOf "string") }] ∧
    (∃ p, ((NewEncoder [] none).1.Encode recordOnlyString).2 = some (.panic p)) ∧
    ¬ ∃ msg, ((NewEncoder [] none).1.Encode recordOnlyString).2 = some (.error msg) := by
  have h1 : ((NewEncoder [] none).1.Encode recordUnexported).2
      = some (.panic
          "reflect.Value.Interface: cannot return value obtained from unexported field or method") := by
    decide
  have h2 : ((NewEncoder [] none).1.Encode recordOnlyString).2
      = some (.panic "reflect: call of reflect.Value.Type on zero Value") := by
    decide
  refine ⟨rfl, h1, ?_, rfl, ⟨_, h2⟩, ?_⟩
  · rintro ⟨msg, h⟩
    rw [h1] at h
    cases h
  · rintro ⟨msg, h⟩
    rw [h2] at h
    cases h

/-- Where the loop of `marshal` runs to its end, the check of `foundTSTag` is
reached: for every struct record (also behind pointers) with at least one
field, all of whose fields are exported and of one of the ten numeric types or
`time.Time`, and in which no `teafiles` tag ends in `,timestamp`,
`Encoder.Encode` returns the error `errors.New("")`. -/
theorem missing_timestamp_rejected (enc : Encoder) (item : Item) (t : List Byte)
    (fields : List StructField) (hitem : item.deref = some (.struct t fields))
    (hne : fields ≠ [])
    (hsup : ∀ f ∈ fields, f.PkgPath = [] ∧ f.Value.supported = true)
    (hts : ∀ f ∈ fields, ∀ tf, f.Tag.lookup StructTagName = some tf → marksTimestamp tf = false) :
    ∃ e, enc.Encode item = (e, some (.error "")) := by
  have hlen : fields.length ≠ 0 := by
    intro h
    exact hne (List.length_eq_zero.mp h)
  obtain ⟨e, he⟩ := marshalFields_no_timestamp fields hsup fields
    (if enc.itemName = [] then (Encoder.binaryWriteBytes { enc with itemName := t } t).1 else enc)
    (fun _ h => h) hts
  refine ⟨e, ?_⟩
  simp only [Encoder.Encode, Encoder.marshal, hitem, hlen, if_false, he]
  rfl

/-- An instance of `missing_timestamp_rejected`: a pointer to the record
`struct { Volume int8 }` with the tag `teafiles:"volume"`. -/
theorem missing_timestamp_rejected_witness :
    (Item.ptr recordNoTimestamp).deref = some recordNoTimestamp ∧
    ∃ e, (NewEncoder [] none).1.Encode (Item.ptr recordNoTimestamp) = (e, some (.error "")) :=
  ⟨rfl, missing_timestamp_rejected (NewEncoder [] none).1 (Item.ptr recordNoTimestamp)
    (bytesOf "main.plain")
    [{ Name := bytesOf "Volume", PkgPath := [],
       Tag := [(bytesOf "teafiles", bytesOf "volume")], Value := .int8 77 }]
    rfl (by decide) (by decide) (by decide)⟩

/-- C14 (fails on the code): `Encode` of a record without timestamp tag
returns an error after `marshal` put the record's type name and its field byte
`4d` into the encoder's buffer; the next `Encode`, of a valid record, succeeds
and flushes them to the writer ahead of its own bytes. -/
theorem failed_record_is_flushed_later :
    ((NewEncoder [] none).1.Encode recordNoTimestamp).2 = some (.error "") ∧
    ((NewEncoder [] none).1.Encode recordNoTimestamp).1.w.out = [] ∧
    ((NewEncoder [] none).1.Encode recordNoTimestamp).1.w.buf
      = [0, 5, 8, 2, 4, 10, 14, 13] ++ bytesOf "main.plain" ++ [77] ∧
    (((NewEncoder [] none).1.Encode recordNoTimestamp).1.Encode record2021).2 = none ∧
    (((NewEncoder [] none).1.Encode recordNoTimestamp).1.Encode record2021).1.w.out
      = [0, 5, 8, 2, 4, 10, 14, 13] ++ bytesOf "main.plain" ++ [77]
        ++ ByteOrder.BigEndian.putInt 8 1609459200000000000 ++ [10] := by
  decide

/-- C15: for every reader, header and `DefaultHeader`, `Decode` returns
`ErrNonPointer` when `rows` is nil, not a pointer, or a nil pointer, and an
`*UnsupportedTypeError` naming the element type when `rows` is a non-nil
pointer to something that is not a slice; in each case the reader, the header
and `DefaultHeader` are as before the call. -/
theorem Decode_validates_target_first (reader : List Byte) (header : Option Header) (g : Header)
    (t : List Byte) :
    Decode reader header .nil g
      = { err := some .ErrNonPointer, header := header, DefaultHeader := g, reader := reader } ∧
    Decode reader header (.nonPointer t) g
      = { err := some .ErrNonPointer, header := header, DefaultHeader := g, reader := reader } ∧
    Decode reader header (.nilPointer t) g
      = { err := some .ErrNonPointer, header := header, DefaultHeader := g, reader := reader } ∧
    Decode reader header (.pointer false t) g
      = { err := some (.UnsupportedTypeError t), header := header, DefaultHeader := g,
          reader := reader } :=
  ⟨rfl, rfl, rfl, rfl⟩

/-- C17 (fails on the code): `NewDecoder(r, nil)` works on the package variable
`DefaultHeader` itself.  After a call on a big-endian stream `DefaultHeader`
holds big-endian, the item name `"T"` and one field; the same little-endian
stream that a first call decodes then fails in the next call, which reads its
magic value in big-endian. -/
theorem DefaultHeader_is_shared :
    (NewDecoder streamBigEndianItem none DefaultHeader).err = none ∧
    (NewDecoder streamBigEndianItem none DefaultHeader).DefaultHeader
      = { DefaultHeader with
          ByteOrder := some .BigEndian, Name := bytesOf "T",
          Fields := [{ Name := bytesOf "ts", Typ := 4, Offset := 0 }] } ∧
    (NewDecoder streamBigEndianItem none DefaultHeader).DefaultHeader ≠ DefaultHeader ∧
    (NewDecoder streamItemAndTime none DefaultHeader).err = none ∧
    (NewDecoder streamItemAndTime none DefaultHeader).DefaultHeader.ByteOrder
      = some .LittleEndian ∧
    (NewDecoder streamItemAndTime none
        (NewDecoder streamBigEndianItem none DefaultHeader).DefaultHeader).err
      = some (.error "reading section id: unexpected EOF") ∧
    (NewDecoder streamItemAndTime none
        (NewDecoder streamBigEndianItem none DefaultHeader).DefaultHeader).DefaultHeader.ByteOrder
      = some .BigEndian := by
  decide

/-- C19 (fails on the code): `readEndianness` reads the magic value in the
byte order the header already holds.  On the same 32-byte stream (magic
`00 05 08 02 04 0a 0e 0d`, then zeros) `NewDecoder` succeeds in both cases,
selecting little-endian when the caller's header held little-endian and
big-endian when it held big-endian. -/
theorem negotiated_order_follows_caller_order :
    streamAllZero.take 8 = [0, 5, 8, 2, 4, 10, 14, 13] ∧
    (NewDecoder streamAllZero (some { zeroHeader with ByteOrder := some .LittleEndian })
      DefaultHeader).err = none ∧
    (NewDecoder streamAllZero (some { zeroHeader with ByteOrder := some .LittleEndian })
      DefaultHeader).header.map (fun h => h.ByteOrder) = some (some .LittleEndian) ∧
    (NewDecoder streamAllZero (some { zeroHeader with ByteOrder := some .BigEndian })
      DefaultHeader).err = none ∧
    (NewDecoder streamAllZero (some { zeroHeader with ByteOrder := some .BigEndian })
      DefaultHeader).header.map (fun h => h.ByteOrder) = some (some .BigEndian) := by
  decide

/-- C20: when the next 4 bytes of the stream, read in the decoder's byte
order, are none of the four section ids, one iteration of the loop of
`readSections` consumes these 4 bytes only, changes nothing else in the
decoder (header and recorded `NextOffset`s included), raises no error, and the
remaining iterations go on with the bytes that follow; if it was the last
iteration `readSections` returns nil with the stream at those bytes. -/
theorem unknown_section_id_skipped (dec : Decoder) (order : ByteOrder) (b rest : List Byte)
    (k : Nat) (ho : dec.header.ByteOrder = some order) (hr : dec.reader = b ++ rest)
    (hb : b.length = 4)
    (h1 : toSigned 32 (order.get b) ≠ SectionIDItem)
    (h2 : toSigned 32 (order.get b) ≠ SectionIDTime)
    (h3 : toSigned 32 (order.get b) ≠ SectionIDContent)
    (h4 : toSigned 32 (order.get b) ≠ SectionIDNameValue) :
    readSectionsLoop (k + 1) dec = readSectionsLoop k { dec with reader := rest } ∧
    readSectionsLoop 1 dec = ({ dec with reader := rest }, none) ∧
    (dec.sectionCount = (k : Int) + 1 →
      readSections dec = readSectionsLoop k { dec with reader := rest }) := by
  have hread : binaryReadInt 4 dec
      = ({ dec with reader := rest }, .ok (toSigned 32 (order.get b))) :=
    binaryReadInt_append 4 dec order b rest ho hr hb
  have hsec : readSection (toSigned 32 (order.get b)) { dec with reader := rest }
      = ({ dec with reader := rest }, none) := by
    simp only [readSection, h1, h2, h3, h4, if_false]
  have hstep : ∀ n, readSectionsLoop (n + 1) dec = readSectionsLoop n { dec with reader := rest } := by
    intro n
    simp only [readSectionsLoop, hread, hsec]
  refine ⟨hstep k, ?_, ?_⟩
  · rw [hstep 0]
    rfl
  · intro hc
    have : dec.sectionCount.toNat = k + 1 := by omega
    simp only [readSections, this]
    exact hstep k

/-- Witness of C20: section id `0x99` in a little-endian stream, followed by
the byte `07`, with `SectionCount = 1`. -/
theorem unknown_section_id_skipped_witness :
    toSigned 32 (ByteOrder.LittleEndian.get [0x99, 0, 0, 0]) = 0x99 ∧
    readSections { newDecoderState ([0x99, 0, 0, 0] ++ [7]) DefaultHeader with sectionCount := 1 }
      = readSectionsLoop 0
          { newDecoderState ([0x99, 0, 0, 0] ++ [7]) DefaultHeader with
              sectionCount := 1, reader := [7] } :=
  ⟨by decide,
    (unknown_section_id_skipped
      { newDecoderState ([0x99, 0, 0, 0] ++ [7]) DefaultHeader with sectionCount := 1 }
      .LittleEndian [0x99, 0, 0, 0] [7] 0 rfl rfl rfl
      (by decide) (by decide) (by decide) (by decide)).2.2 rfl⟩

/-- C16: when `NewDecoder` returns a decoder on the stream `s`, having consumed
`n` bytes of it (what `s` holds less what is left in the reader), then on
every prefix of `s` shorter than `n` bytes, with the same header argument, it
returns no decoder and an error value. -/
theorem truncation_aborts_header_read (s : List Byte) (header : Option Header) (g : Header)
    (p : List Byte) (hs : (NewDecoder s header g).err = none) (hp : p <+: s)
    (hlt : p.length < s.length - (NewDecoder s header g).reader.length) :
    (NewDecoder p header g).decoder = none ∧
    ∃ e, (NewDecoder p header g).err = some (.error e) :=
  NewDecoder_truncated s header g p hs hp hlt

/-- Witness of C16: the header of 99 bytes with an Item and a Time section,
cut after 50 bytes. -/
theorem truncation_aborts_header_read_witness :
    (NewDecoder streamItemAndTime none DefaultHeader).err = none ∧
    (streamItemAndTime.take 50).length
      < streamItemAndTime.length - (NewDecoder streamItemAndTime none DefaultHeader).reader.length ∧
    (NewDecoder (streamItemAndTime.take 50) none DefaultHeader).decoder = none ∧
    ∃ e, (NewDecoder (streamItemAndTime.take 50) none DefaultHeader).err = some (.error e) :=
  ⟨by decide, by decide,
    truncation_aborts_header_read streamItemAndTime none DefaultHeader (streamItemAndTime.take 50)
      (by decide) (List.take_prefix _ _) (by decide)⟩

/-- C18: for a header made of magic bytes that select the byte order `order`,
`ItemStart`, `ItemEnd`, `SectionCount` and then, in any order, exactly one Item
section and at most one Content section, one Time section and one NameValue
section with `Count = 0`, each with its `NextOffset` equal to the byte length
of the rest of the section, where `ItemStart` is at least the length of this
header and the stream holds at least `ItemStart` bytes: `NewDecoder` returns a
decoder, the padding it read has length `ItemStart - 32 - sum of (8 +
NextOffset)`, and it consumed exactly `ItemStart` bytes. -/
theorem padding_exact_for_common_shape (order o0 : ByteOrder) (magic : List Byte)
    (itemStart itemEnd : Int) (secs : List Section) (tail : List Byte)
    (header : Option Header) (g : Header)
    (ho0 : (defaultByteOrder (targetHeader header g)).ByteOrder = some o0)
    (hm : magic.length = 8) (hneg : negotiates o0 magic order)
    (hitem : SectionKind.item ∈ secs.map Section.kind)
    (hnodup : (secs.map Section.kind).Nodup) (hwire : ∀ s ∈ secs, s.onWire)
    (hstart : isInt64 itemStart) (hend : isInt64 itemEnd)
    (hlen : (32 : Int) + sectionsSize secs ≤ itemStart)
    (htail : itemStart ≤ 32 + sectionsSize secs + tail.length) :
    (NewDecoder (wireHeader order magic itemStart itemEnd secs ++ tail) header g).err = none ∧
    (∃ d, (NewDecoder (wireHeader order magic itemStart itemEnd secs ++ tail) header g).decoder
        = some d ∧
      (d.padding.length : Int) = itemStart - 32 - sectionsSize secs) ∧
    (((wireHeader order magic itemStart itemEnd secs ++ tail).length -
      (NewDecoder (wireHeader order magic itemStart itemEnd secs ++ tail) header g).reader.length
        : Nat) : Int) = itemStart :=
  NewDecoder_common_shape order o0 magic itemStart itemEnd secs tail header g ho0 hm hneg hitem
    hnodup hwire hstart hend hlen htail

/-- Witness of C18: a little-endian header with a Content, an Item and a Time
section (131 bytes), `ItemStart = 140`, followed by 12 bytes. -/
theorem padding_exact_for_common_shape_witness :
    sectionsSize sampleSections = 99 ∧
    (NewDecoder (wireHeader .LittleEndian magicLE 140 200 sampleSections ++ List.replicate 12 7)
      none DefaultHeader).err = none ∧
    (∃ d, (NewDecoder
        (wireHeader .LittleEndian magicLE 140 200 sampleSections ++ List.replicate 12 7)
        none DefaultHeader).decoder = some d ∧
      (d.padding.length : Int) = 140 - 32 - sectionsSize sampleSections) ∧
    (((wireHeader .LittleEndian magicLE 140 200 sampleSections ++ List.replicate 12 7).length -
      (NewDecoder (wireHeader .LittleEndian magicLE 140 200 sampleSections ++ List.replicate 12 7)
        none DefaultHeader).reader.length : Nat) : Int) = 140 :=
  ⟨by decide,
    padding_exact_for_common_shape .LittleEndian .LittleEndian magicLE 140 200 sampleSections
      (List.replicate 12 7) none DefaultHeader rfl (by decide) (by decide) (by decide)
      (by decide) (by decide) (by decide) (by decide) (by decide) (by decide)⟩

end Teafile
